import Mathlib

/-!
Verification of the Tinzenite model package (peer-to-peer directory
synchronization engine) against its natural-language specification.

The Go sources are shallowly embedded: the `Model` struct and its maps become
Lean structures over association lists, the filesystem that the code reads and
mutates becomes an explicit finite map from full paths to file metadata, and
every state-mutating Go method becomes a function `St → St × Except GoErr α`.
The version-vector operations, the path helpers and the reserved-directory
names live in the separate `tinzenite/shared` repository whose sources are not
part of this repo; those few definitions are modelled from the specification
(each is marked as such in its doc comment).  Everything else is translated
from the repository sources (`model.go` / `remove.go` / `staticinfo.go`, in
their newest revision).
-/

namespace Tinzenite

/-- Split a string at every slash character; mirrors `strings.Split(s, "/")`.
Implemented over the character list so that it evaluates by `decide`. -/
def splitSlashAux : List Char → List Char → List String
  | [], acc => [String.mk acc.reverse]
  | c :: rest, acc =>
    if c = '/' then String.mk acc.reverse :: splitSlashAux rest []
    else splitSlashAux rest (c :: acc)

/-- Split a string at slashes into its path segments. -/
def splitSlash (s : String) : List String := splitSlashAux s.data []

/-- Join path segments with slashes; mirrors `strings.Join(l, "/")`. -/
def joinSlash : List String → String
  | [] => ""
  | [s] => s
  | s :: rest => s ++ "/" ++ joinSlash rest

/-- Boolean string-prefix test; mirrors `strings.HasPrefix(s, p)`. -/
def prefixB (p s : String) : Bool := p.data.isPrefixOf s.data

/-- Boolean substring test; mirrors `strings.Contains(s, sub)`. -/
def containsStr (s sub : String) : Bool := s.data.tails.any (sub.data.isPrefixOf ·)

/-- Drop the first `n` characters of a string. -/
def dropStr (s : String) (n : Nat) : String := String.mk (s.data.drop n)

/-- Character length of a string. -/
def strLen (s : String) : Nat := s.data.length

/-- Modelled from the spec: a version vector (`shared.Version`, §3) is a
mapping from peer identifier to a monotone non-negative counter; represented
as an association list with absent keys reading as zero. -/
abbrev Version := List (String × Nat)

/-- Counter of peer `k` in version vector `v`; absent keys read as 0. -/
def vget (v : Version) (k : String) : Nat :=
  match v.find? (fun p => p.1 = k) with
  | some p => p.2
  | none => 0

/-- Modelled from the spec: `includes(a, b)` (a ⊇ b) holds iff for every key
`k`, `a[k] ≥ b[k]`; used to decide "I already know that update" (§3). -/
def includesB (a b : Version) : Bool := b.all (fun p => p.2 ≤ vget a p.1)

/-- Modelled from the spec: `equal(a, b)` holds iff the two vectors are the
identical mapping (§3). -/
def equalB (a b : Version) : Bool :=
  a.all (fun p => vget b p.1 = p.2) && b.all (fun p => vget a p.1 = p.2)

/-- Modelled from the spec: `is_empty` holds iff all entries are zero or none
are present (§3). -/
def isEmptyB (v : Version) : Bool := v.all (fun p => p.2 = 0)

/-- Modelled from the spec: `increase(self)` increments `self`'s entry,
creating it at 1 if absent (§3). -/
def increase (self : String) : Version → Version
  | [] => [(self, 1)]
  | p :: rest => if p.1 = self then (p.1, p.2 + 1) :: rest else p :: increase self rest

/-- Modelled from the spec: the merge test (`shared.Version.Valid`, §3/§4.1)
succeeds exactly when one side dominates the other or the two are equal; when
neither dominates the caller must treat the situation as a conflict.  The
`self` argument is accepted for interface fidelity but plays no role in the
ordering test. -/
def validB (mine other : Version) (self : String) : Bool :=
  let _ := self
  includesB mine other || includesB other mine

/-- The three operation kinds of `shared.Operation`. -/
inductive Op where
  | create
  | modify
  | remove
deriving DecidableEq, Repr

/-- An object descriptor (`shared.ObjectInfo`), children stripped. -/
structure ObjectInfo where
  identification : String
  name : String
  path : String
  shadow : Bool
  content : String
  version : Version
  directory : Bool
deriving DecidableEq, Repr

/-- An update message (`shared.UpdateMessage`): an operation plus the
descriptor it concerns. -/
structure UpdateMessage where
  operation : Op
  object : ObjectInfo
deriving DecidableEq, Repr

/-- Mirror of `shared.CreateUpdateMessage`. -/
def createUpdateMessage (op : Op) (obj : ObjectInfo) : UpdateMessage :=
  { operation := op, object := obj }

/-- The per-path metadata record (`staticinfo` in `staticinfo.go`). -/
structure Staticinfo where
  identification : String
  directory : Bool
  content : String
  modtime : Nat
  version : Version
deriving DecidableEq, Repr

/-- Mirror of `staticinfo.applyObjectInfo`: overwrite id, version, directory
flag and content hash from the remote descriptor. -/
def applyObjectInfo (s : Staticinfo) (obj : ObjectInfo) : Staticinfo :=
  { s with
    identification := obj.identification
    version := obj.version
    directory := obj.directory
    content := obj.content }

/-- Association-list lookup, mirroring Go map indexing `l[k]`. -/
def lookupL {α : Type} (l : List (String × α)) (k : String) : Option α :=
  match l.find? (fun p => p.1 = k) with
  | some p => some p.2
  | none => none

/-- Key-membership test for an association list. -/
def containsKey {α : Type} (l : List (String × α)) (k : String) : Bool :=
  (lookupL l k).isSome

/-- Association-list insertion, mirroring Go map assignment `l[k] = v`. -/
def insertL {α : Type} (l : List (String × α)) (k : String) (v : α) : List (String × α) :=
  match l with
  | [] => [(k, v)]
  | p :: rest => if p.1 = k then (k, v) :: rest else p :: insertL rest k v

/-- Association-list deletion, mirroring Go `delete(l, k)`. -/
def eraseL {α : Type} (l : List (String × α)) (k : String) : List (String × α) :=
  l.filter (fun p => ¬ p.1 = k)

/-- Insertion into a tracked-path set (`m.TrackedPaths[k] = true`). -/
def insertTrk (l : List String) (k : String) : List String :=
  if l.contains k then l else l ++ [k]

/-- Deletion from a tracked-path set (`delete(m.TrackedPaths, k)`). -/
def eraseTrk (l : List String) (k : String) : List String :=
  l.filter (fun x => ¬ x = k)

/-- The metadata the model reads from one filesystem entry: directory flag,
modification time and content hash (the content-addressable hash is an
external collaborator, §6, so the hash string itself is stored). -/
structure FSEntry where
  isDir : Bool
  mtime : Nat
  hash : String
deriving DecidableEq, Repr

/-- The filesystem under the root, as a finite map from full paths to
entries. -/
abbrev FS := List (String × FSEntry)

/-- Lookup of a full path on disk (`os.Lstat`). -/
def fsLookup (fs : FS) (p : String) : Option FSEntry := lookupL fs p

/-- Mirror of `shared.FileExists` / `shared.ObjectExists`. -/
def fileExistsB (fs : FS) (p : String) : Bool := (fsLookup fs p).isSome

/-- Write (create or overwrite) a plain file at `p` (`ioutil.WriteFile`). -/
def fsWrite (fs : FS) (p : String) (e : FSEntry) : FS := insertL fs p e

/-- Create a directory at `p` (`shared.MakeDirectory`). -/
def fsMkdir (fs : FS) (p : String) (now : Nat) : FS :=
  insertL fs p { isDir := true, mtime := now, hash := "" }

/-- Is `p` the path `base` itself or underneath it? -/
def underB (base p : String) : Bool := p = base || prefixB (base ++ "/") p

/-- Delete the path `p` and its whole subtree (`os.RemoveAll`). -/
def fsRemoveSubtree (fs : FS) (p : String) : FS :=
  fs.filter (fun pe => ¬ underB p pe.1 = true)

/-- Move the entry at `src` to `dst`, overwriting (`os.Rename`). -/
def fsRename (fs : FS) (src dst : String) : FS :=
  match fsLookup fs src with
  | none => fs
  | some e => insertL (eraseL fs src) dst e

/-- Direct children of directory `dir` as (name, entry) pairs
(`ioutil.ReadDir`); `none` when the directory does not exist. -/
def readDir (fs : FS) (dir : String) : Option (List (String × FSEntry)) :=
  match fsLookup fs dir with
  | none => none
  | some e =>
    if e.isDir then
      some (fs.filterMap (fun pe =>
        if prefixB (dir ++ "/") pe.1 ∧
            (dropStr pe.1 (strLen dir + 1)).data.contains '/' = false ∧
            (dropStr pe.1 (strLen dir + 1)) ≠ "" then
          some (dropStr pe.1 (strLen dir + 1), pe.2)
        else none))
    else none

/-- Modelled from the spec: the path abstraction (§4.2) pairs a root with a
subpath; `apply` resolves a string against the root: a string carrying the
root as a prefix is stripped to its subpath, anything else is taken to be a
subpath already (`shared.RelativePath`). -/
structure RelativePath where
  root : String
  sub : String
deriving DecidableEq, Repr

/-- Resolve a raw string against a root, producing the subpath. -/
def applyStr (root p : String) : String :=
  if p = root then ""
  else if prefixB (root ++ "/") p then dropStr p (strLen root + 1)
  else p

/-- Mirror of `shared.CreatePath`. -/
def createPath (root sub : String) : RelativePath := { root := root, sub := sub }

/-- Mirror of `shared.CreatePathRoot`. -/
def createPathRoot (root : String) : RelativePath := { root := root, sub := "" }

/-- Mirror of `RelativePath.Apply`. -/
def RelativePath.apply (rp : RelativePath) (p : String) : RelativePath :=
  { root := rp.root, sub := applyStr rp.root p }

/-- Mirror of `RelativePath.FullPath`. -/
def RelativePath.fullPath (rp : RelativePath) : String :=
  if rp.sub = "" then rp.root else rp.root ++ "/" ++ rp.sub

/-- Mirror of `RelativePath.SubPath`. -/
def RelativePath.subPath (rp : RelativePath) : String := rp.sub

/-- Mirror of `RelativePath.RootPath`. -/
def RelativePath.rootPath (rp : RelativePath) : String := rp.root

/-- Mirror of `RelativePath.AtRoot`. -/
def RelativePath.atRoot (rp : RelativePath) : Bool := rp.sub = ""

/-- Mirror of `RelativePath.LastElement`: the last segment of the full
path. -/
def RelativePath.lastElement (rp : RelativePath) : String :=
  (splitSlash rp.fullPath).getLastD ""

/-- Modelled from the spec: the reserved subtree (§3) is rooted at the
distinguished directory `.tinzenite` under the replica root
(`shared.TINZENITEDIR`). -/
def TINZENITEDIR : String := ".tinzenite"

/-- Modelled from the spec: the shared tombstone directory
(`shared.REMOVEDIR`, `RESV/remove` in the spec). -/
def REMOVEDIR : String := "removed"

/-- Modelled from the spec: per-tombstone directory of peers that must
acknowledge (`shared.REMOVECHECKDIR`). -/
def REMOVECHECKDIR : String := "check"

/-- Modelled from the spec: per-tombstone directory of peers that have
acknowledged (`shared.REMOVEDONEDIR`). -/
def REMOVEDONEDIR : String := "done"

/-- Modelled from the spec: the local-only state directory
(`shared.LOCALDIR`, `RESV/local`). -/
def LOCALDIR : String := "local"

/-- Modelled from the spec: the local-only remembered-tombstone store
(`shared.REMOVESTOREDIR`, `RESV/local/remove-store`). -/
def REMOVESTOREDIR : String := "removestore"

/-- Modelled from the spec: the staging area for inbound file bytes
(`shared.TEMPDIR`, `RESV/temp`). -/
def TEMPDIR : String := "temp"

/-- Modelled from the spec: name of the persisted model snapshot
(`shared.MODELJSON`). -/
def MODELJSON : String := "model.json"

/-- `removalTimeout` from `const.go`: 24 hours, in seconds. -/
def removalTimeout : Nat := 24 * 3600

/-- `removalLocal` from `const.go`: 24 hours, in seconds. -/
def removalLocal : Nat := 24 * 3600

/-- The model of a directory and its contents (`Model` in the sources, newest
revision: `RootPath`, `StorePath`, `SelfID`, `TrackedPaths`, `StaticInfos`). -/
structure Model where
  root : String
  storePath : String
  selfID : String
  trackedPaths : List String
  staticInfos : List (String × Staticinfo)
deriving DecidableEq, Repr

/-- The discriminated error results of the package (`shared.Err*`, the private
`err*` values of `const.go`, and fuel exhaustion of the embedding). -/
inductive GoErr where
  | conflict
  | illegalFileState
  | modelInconsistent
  | missingUpdateFile
  | parentObjectsMissing
  | objectUntracked
  | ignoreUpdate
  | objectRemoved
  | objectRemovalDone
  | filterRejected
  | unsupported
  | ioError
  | outOfFuel
deriving DecidableEq, Repr

/-- The external collaborators of §6: the replica-set peer directory
(`readPeers`), the ignore matcher, a supply of fresh object identifiers and
the current time. -/
structure Env where
  peers : List String
  ignoreOracle : String → Bool
  idGen : Nat → String
  now : Nat

/-- The full mutable state one model call operates on: the model itself, the
filesystem under its root, the event sink (the registered update channel) and
the identifier counter backing `shared.NewIdentifier`. -/
structure St where
  model : Model
  fs : FS
  sink : List UpdateMessage
  idCtr : Nat
  chanOpen : Bool
deriving DecidableEq, Repr

/-- Decidable equality of error-carrying results, for evaluating the embedded
operations on concrete inputs. -/
instance {ε α : Type} [DecidableEq ε] [DecidableEq α] : DecidableEq (Except ε α) := fun a b =>
  match a, b with
  | .ok x, .ok y => if h : x = y then .isTrue (by rw [h]) else .isFalse (by simp [h])
  | .error x, .error y => if h : x = y then .isTrue (by rw [h]) else .isFalse (by simp [h])
  | .ok _, .error _ => .isFalse (by simp)
  | .error _, .ok _ => .isFalse (by simp)

/-- A state-passing computation: Go methods that mutate the model or the
filesystem and may return an error. The state is always returned, so
mutations made before an error persist, exactly as in Go. -/
def M (α : Type) : Type := St → St × Except GoErr α

/-- Return a value without touching the state (`return nil` / a pure result). -/
def mret {α : Type} (a : α) : M α := fun s => (s, .ok a)

/-- Abort with an error, keeping the state (`return err`). -/
def mthrow {α : Type} (e : GoErr) : M α := fun s => (s, .error e)

/-- Sequencing with Go error propagation (`if err != nil { return err }`). -/
def mbind {α β : Type} (x : M α) (f : α → M β) : M β := fun s =>
  match x s with
  | (s1, .ok a) => f a s1
  | (s1, .error e) => (s1, .error e)

/-- Run a computation but drop its error (`if err != nil { warn }; continue`). -/
def ignoringErr (x : M Unit) : M Unit := fun s => ((x s).1, .ok ())

/-- Run an action on each list element, stopping at the first error (a Go
`for` loop whose body may `return err`). -/
def forEachM {α : Type} (f : α → M Unit) : List α → M Unit
  | [] => mret ()
  | a :: rest => mbind (f a) (fun _ => forEachM f rest)

/-- Mirror of `Model.IsTracked`: the path resolves to a subpath that is in
both the tracked-path set and the static-info store. -/
def isTrackedB (m : Model) (p : String) : Bool :=
  let sub := applyStr m.root p
  m.trackedPaths.contains sub && containsKey m.staticInfos sub

/-- Mirror of `isLocalRemoved` (`remove.go`): the local-only remembered
tombstone for the id exists. -/
def isLocalRemovedB (m : Model) (fs : FS) (id : String) : Bool :=
  fileExistsB fs (m.root ++ "/" ++ TINZENITEDIR ++ "/" ++ LOCALDIR ++ "/" ++ REMOVESTOREDIR ++ "/" ++ id)

/-- Mirror of `isRemoved` (`remove.go`): the shared tombstone directory or the
local-only remembered tombstone for the id exists. -/
def isRemovedB (m : Model) (fs : FS) (id : String) : Bool :=
  fileExistsB fs (m.root ++ "/" ++ TINZENITEDIR ++ "/" ++ REMOVEDIR ++ "/" ++ id) || isLocalRemovedB m fs id

/-- The zero value a Go map read yields for a missing `staticinfo` key. -/
def zeroStaticinfo : Staticinfo :=
  { identification := "", directory := false, content := "", modtime := 0, version := [] }

/-- Mirror of `Model.HasUpdate`: has the update already been applied locally?
Remove — the path is no longer in the store; Modify — the stored version
equals the message version; Create — the path is in the store. -/
def hasUpdateB (m : Model) (um : UpdateMessage) : Bool :=
  let stin := (lookupL m.staticInfos um.object.path).getD zeroStaticinfo
  let exi := containsKey m.staticInfos um.object.path
  match um.operation with
  | .remove => !exi
  | .modify => equalB stin.version um.object.version
  | .create => exi

/-- The proper parent subpaths of a subpath, deepest first and ending with the
root subpath `""`; this is the sequence of `path.Up()` values the
`parentsExist` loop inspects. -/
def properParentSubs (sub : String) : List String :=
  if sub = "" then []
  else
    let segs := splitSlash sub
    (List.range segs.length).reverse.map (fun i => joinSlash (segs.take i))

/-- Mirror of `Model.parentsExist`: walk up from the path and require every
parent (including the root itself) to be tracked. -/
def parentsExistB (m : Model) (path : RelativePath) : Bool :=
  (properParentSubs path.sub).all (fun s => isTrackedB m (createPath path.root s).fullPath)

/-- Mirror of `Model.isModified`: directories are never modified; if the
on-disk modification time matches the stored one the file is unchanged;
otherwise compare the content hash; a stat/hash failure reads as
unmodified. -/
def isModifiedB (m : Model) (fs : FS) (path : RelativePath) : Bool :=
  match lookupL m.staticInfos path.sub with
  | none => false
  | some stin =>
    if stin.directory then false
    else
      match fsLookup fs path.fullPath with
      | none => false
      | some stat =>
        if stat.mtime = stin.modtime then false
        else !(stat.hash = stin.content)

/-- Mirror of `Model.GetInfo`: build the descriptor of a tracked path from its
static info plus the on-disk directory flag. -/
def getInfo (m : Model) (fs : FS) (path : RelativePath) : Except GoErr ObjectInfo :=
  if m.trackedPaths.contains path.sub = false then .error .objectUntracked
  else
    match lookupL m.staticInfos path.sub with
    | none => .error .objectUntracked
    | some stin =>
      match fsLookup fs path.fullPath with
      | none => .error .ioError
      | some stat =>
        .ok { identification := stin.identification,
              name := path.lastElement,
              path := path.sub,
              shadow := false,
              version := stin.version,
              directory := stat.isDir,
              content := if stat.isDir then "" else stin.content }

/-- The trailing checks of `Model.CheckMessage` that run for every message
(parents present, tracked-ness for non-creates, no empty version on
modify). -/
def checkMessageRest (m : Model) (um : UpdateMessage) : UpdateMessage × Option GoErr :=
  if parentsExistB m (createPath m.root um.object.path) = false then (um, some .parentObjectsMissing)
  else if um.operation ≠ .create ∧ isTrackedB m um.object.path = false then (um, some .objectUntracked)
  else if um.operation = .modify ∧ isEmptyB um.object.version = true then (um, some .filterRejected)
  else (um, none)

/-- Mirror of `Model.CheckMessage` (newest revision): the already-applied
check, the two in-place operation rewrites, the removed-object check, the
special handling of paths inside the tombstone subtree, and the trailing
invariant checks.  Returns the possibly rewritten message together with the
filter verdict (`none` means accepted). -/
def checkMessage (m : Model) (fs : FS) (um : UpdateMessage) : UpdateMessage × Option GoErr :=
  if hasUpdateB m um then (um, some .ignoreUpdate)
  else
    let um1 := if isTrackedB m um.object.path = false ∧ um.operation = .modify then
        { um with operation := .create } else um
    let um2 := if isTrackedB m um1.object.path = true ∧ um1.operation = .create then
        { um1 with operation := .modify } else um1
    if isRemovedB m fs um2.object.identification = true ∧ um2.operation ≠ .remove then
      (um2, some .objectRemoved)
    else
      if prefixB (TINZENITEDIR ++ "/" ++ REMOVEDIR) um2.object.path then
        if um2.operation ≠ .create then (um2, some .filterRejected)
        else if parentsExistB m (createPath m.root um2.object.path) = false then (um2, some .ignoreUpdate)
        else if isLocalRemovedB m fs um2.object.identification then (um2, some .objectRemoved)
        else if isLocalRemovedB m fs um2.object.name then (um2, some .objectRemovalDone)
        else checkMessageRest m um2
      else checkMessageRest m um2

/-- The chain of full paths the walk passes from `base` down to `p`; a path is
pruned when the ignore matcher fires on it or on any directory above it
within the walk (`filepath.SkipDir`). -/
def walkChain (base p : String) : List String :=
  if p = base then [base]
  else if prefixB (base ++ "/") p then
    let segs := splitSlash (dropStr p (strLen base + 1))
    base :: (List.range segs.length).map (fun i => base ++ "/" ++ joinSlash (segs.take (i + 1)))
  else [p]

/-- Does the ignore matcher (external collaborator, §6) prune `p` from a walk
rooted at `base`? -/
def walkExcluded (env : Env) (base p : String) : Bool :=
  (walkChain base p).any env.ignoreOracle

/-- Mirror of `Model.partialPopulateMap`: walk the subtree of the resolved
path, apply the ignore matcher, and collect the subpaths of the surviving
entries. -/
def partialPopulateMap (env : Env) (root : String) (fs : FS) (rootPath : String) : List String :=
  let relPath := (createPathRoot root).apply rootPath
  let base := relPath.fullPath
  fs.filterMap (fun pe =>
    if underB base pe.1 && !walkExcluded env base pe.1 then some (applyStr root pe.1)
    else none)

/-- Mirror of `Model.populateMap`. -/
def populateMap (env : Env) (m : Model) (fs : FS) : List String :=
  partialPopulateMap env m.root fs m.root

/-- Insert an element into a sorted list, keeping it sorted under `le`. -/
def insertSorted {α : Type} (le : α → α → Bool) (a : α) : List α → List α
  | [] => [a]
  | b :: bs => if le a b then a :: b :: bs else b :: insertSorted le a bs

/-- Insertion sort under a boolean relation (mirrors Go's `sort.Sort`, whose
algorithm is unspecified; only the ordering contract matters). -/
def sortBy {α : Type} (le : α → α → Bool) : List α → List α
  | [] => []
  | a :: as => insertSorted le a (sortBy le as)

/-- Sort subpaths so that directories precede their contents
(`shared.SortString`; the in-repo comment documents ordering by path
length). -/
def sortPaths (l : List String) : List String :=
  sortBy (fun a b => strLen a ≤ strLen b) l

/-- Mirror of `sortUpdateMessages`: order update messages by the length of the
object path so that directories are listed before their contents. -/
def sortUpdateMessages (l : List UpdateMessage) : List UpdateMessage :=
  sortBy (fun a b => strLen a.object.path ≤ strLen b.object.path) l

/-- Mirror of `Model.compareMaps` (semantics of `shared.Difference` taken
from the in-repo inline revision and §4.3): `created` is current minus
tracked, `modified` the intersection, `removed` tracked minus current, each
filtered by the scope predicate and sorted. -/
def compareMaps (m : Model) (scope : String) (current : List String) :
    List String × List String × List String :=
  let skip := fun (path : String) =>
    !(prefixB scope (m.root ++ "/" ++ path)) && !(containsStr scope (m.root ++ "/" ++ path))
  let tempCreated := current.filter (fun p => !m.trackedPaths.contains p)
  let tempModified := m.trackedPaths.filter (fun p => current.contains p)
  let tempRemoved := m.trackedPaths.filter (fun p => !current.contains p)
  (sortPaths (tempCreated.filter (fun p => !skip p)),
   sortPaths (tempModified.filter (fun p => !skip p)),
   sortPaths (tempRemoved.filter (fun p => !skip p)))

/-- Mirror of `Model.notify` (newest revision): drop nil objects, suppress a
Modify whose object carries an empty version, and otherwise send the message
to the registered channel, if any. -/
def notifyM (op : Op) (obj : Option ObjectInfo) : M Unit := fun s =>
  match obj with
  | none => (s, .ok ())
  | some o =>
    if isEmptyB o.version = true ∧ op = .modify then (s, .ok ())
    else if s.chanOpen then ({ s with sink := s.sink ++ [createUpdateMessage op o] }, .ok ())
    else (s, .ok ())

/-- Modelled from the spec: a freshly minted record carries a version
containing only `self: 1` (§3, lifecycle; `shared.CreateVersion`). -/
def createVersion (self : String) : Version := [(self, 1)]

/-- Mirror of `createStaticInfo` (`staticinfo.go`): mint a fresh identifier,
stat the path and hash its content (directories hash to the empty string). -/
def createStaticInfoM (env : Env) (full : String) : M Staticinfo := fun s =>
  match fsLookup s.fs full with
  | none => (s, .error .ioError)
  | some stat =>
    ({ s with idCtr := s.idCtr + 1 },
     .ok { identification := env.idGen s.idCtr,
           version := createVersion s.model.selfID,
           directory := stat.isDir,
           content := if stat.isDir then "" else stat.hash,
           modtime := stat.mtime })

/-- Mirror of `staticinfo.updateFromDisk`: refresh the content hash (files
only) and the modification time from disk. -/
def updateFromDisk (fs : FS) (full : String) (stin : Staticinfo) : Except GoErr Staticinfo :=
  match fsLookup fs full with
  | none => .error .ioError
  | some stat =>
    .ok { stin with
          content := if stin.directory then stin.content else stat.hash,
          modtime := stat.mtime }

/-- Mirror of `Model.applyFile`: move the staged file `RESV/temp/<id>` onto
the target path, failing when the staging area is empty. -/
def applyFileM (id target : String) : M Unit := fun s =>
  let temppath := s.model.root ++ "/" ++ TINZENITEDIR ++ "/" ++ TEMPDIR ++ "/" ++ id
  match fsLookup s.fs temppath with
  | none => (s, .error .missingUpdateFile)
  | some _ => ({ s with fs := fsRename s.fs temppath target }, .ok ())

/-- Mirror of `shared.MakeDirectory` as a state step. -/
def mkdirM (env : Env) (full : String) : M Unit := fun s =>
  ({ s with fs := fsMkdir s.fs full env.now }, .ok ())

/-- Mirror of `Model.Store`: persist the model snapshot to
`StorePath/model.json`. -/
def storeM (env : Env) : M Unit := fun s =>
  let entry : FSEntry := { isDir := false, mtime := env.now, hash := "" }
  ({ s with fs := fsWrite s.fs (s.model.storePath ++ "/" ++ MODELJSON) entry }, .ok ())

/-- The common tail of `Model.ApplyCreate`: insert the new record into both
maps, then emit the Create event (a failed `GetInfo` only warns). -/
def applyCreateFinish (path : RelativePath) (stin : Staticinfo) : M Unit := fun s =>
  let m1 := { s.model with
              trackedPaths := insertTrk s.model.trackedPaths path.sub,
              staticInfos := insertL s.model.staticInfos path.sub stin }
  let s1 := { s with model := m1 }
  match getInfo m1 s1.fs path with
  | .error _ => (s1, .ok ())
  | .ok localObj => notifyM .create (some localObj) s1

/-- Mirror of `Model.ApplyCreate` (newest revision): reject creates on
already-tracked paths (Conflict when a file exists on disk, IllegalFileState
when it does not); a remote create conflicts with an existing file, then
makes the directory or moves the staged file into place and adopts the remote
attributes; a local create requires the file on disk. -/
def applyCreate (env : Env) (path : RelativePath) (remote : Option ObjectInfo) : M Unit := fun s =>
  let localExists := fileExistsB s.fs path.fullPath
  if isTrackedB s.model path.fullPath then
    if localExists then (s, .error .conflict) else (s, .error .illegalFileState)
  else
    match remote with
    | some robj =>
      if localExists then (s, .error .conflict)
      else
        (mbind (if robj.directory then mkdirM env path.fullPath
                else applyFileM robj.identification path.fullPath) (fun _ =>
         mbind (createStaticInfoM env path.fullPath) (fun stin0 =>
         applyCreateFinish path (applyObjectInfo stin0 robj)))) s
    | none =>
      if localExists = false then (s, .error .illegalFileState)
      else
        (mbind (createStaticInfoM env path.fullPath) (fun stin =>
         applyCreateFinish path stin)) s

/-- The common tail of `Model.ApplyModify`: refresh hash and modtime from
disk, write the record back and emit the Modify event. -/
def applyModifyFinish (path : RelativePath) (stin1 : Staticinfo) : M Unit := fun s =>
  match updateFromDisk s.fs path.fullPath stin1 with
  | .error e => (s, .error e)
  | .ok stin2 =>
    let m1 := { s.model with staticInfos := insertL s.model.staticInfos path.sub stin2 }
    let s1 := { s with model := m1 }
    notifyM .modify (getInfo m1 s1.fs path).toOption s1

/-- Mirror of `Model.ApplyModify` (newest revision): quietly drop remote
descriptors with an empty version; require a static-info record; a remote
modify conflicts when the local file changed since the last scan or when the
version merge test fails, otherwise adopts the remote version and moves the
staged file into place; a local modify without an actual change is a no-op,
otherwise the version is increased under self. -/
def applyModify (path : RelativePath) (remote : Option ObjectInfo) : M Unit := fun s =>
  if (match remote with | some r => isEmptyB r.version | none => false) = true then (s, .ok ())
  else
    match lookupL s.model.staticInfos path.sub with
    | none => (s, .error .modelInconsistent)
    | some stin =>
      let localModified := isModifiedB s.model s.fs path
      match remote with
      | some robj =>
        if localModified then (s, .error .conflict)
        else if validB stin.version robj.version s.model.selfID = false then (s, .error .conflict)
        else
          (mbind (if robj.directory = false then applyFileM stin.identification path.fullPath
                  else mret ()) (fun _ =>
           applyModifyFinish path { stin with version := robj.version })) s
      | none =>
        if localModified = false then (s, .ok ())
        else applyModifyFinish path { stin with version := increase s.model.selfID stin.version } s

/-- One iteration of the `directRemove` loop: delete the object from disk (if
still present) and drop its subpath from both model maps. -/
def removeOne (path : RelativePath) (s : St) (obj : String) : St :=
  let relP := path.apply obj
  let fs1 := if fileExistsB s.fs relP.fullPath then fsRemoveSubtree s.fs relP.fullPath else s.fs
  { s with
    fs := fs1,
    model := { s.model with
               trackedPaths := eraseTrk s.model.trackedPaths relP.sub,
               staticInfos := eraseL s.model.staticInfos relP.sub } }

/-- Mirror of `Model.directRemove`: walk the subtree of the path and remove
every surviving entry from disk and from the model, emitting no event. -/
def directRemove (env : Env) (path : RelativePath) : M Unit := fun s =>
  ((partialPopulateMap env s.model.root s.fs path.fullPath).foldl (removeOne path) s, .ok ())

/-- Mirror of `makeLocalRemove` (`remove.go`): write the local-only
remembered tombstone for the id. -/
def makeLocalRemove (env : Env) (id : String) : M Unit := fun s =>
  let entry : FSEntry := { isDir := false, mtime := env.now, hash := "" }
  let p := s.model.root ++ "/" ++ TINZENITEDIR ++ "/" ++ LOCALDIR ++ "/" ++ REMOVESTOREDIR ++ "/" ++ id
  ({ s with fs := fsWrite s.fs p entry }, .ok ())

/-- Mirror of `completeTrackedRemoval` (`remove.go`): the removal is complete
iff every peer marker under `check/` has a matching marker under `done/`;
exactly then the local-only tombstone is written first and the whole shared
tombstone subtree is hard-deleted via `directRemove`. -/
def completeTrackedRemoval (env : Env) (id : String) : M Unit := fun s =>
  let removeDir := s.model.root ++ "/" ++ TINZENITEDIR ++ "/" ++ REMOVEDIR
  let objRemovePath := removeDir ++ "/" ++ id
  match readDir s.fs (objRemovePath ++ "/" ++ REMOVECHECKDIR) with
  | none => (s, .error .ioError)
  | some allCheck =>
    let complete := allCheck.all (fun pe =>
      fileExistsB s.fs (objRemovePath ++ "/" ++ REMOVEDONEDIR ++ "/" ++ pe.1))
    if complete then
      (mbind (makeLocalRemove env id) (fun _ =>
       directRemove env ((createPathRoot s.model.root).apply objRemovePath))) s
    else (s, .ok ())

/-- The state produced by the complete branch of `completeTrackedRemoval`:
the local-only tombstone written, then the `directRemove` fold over the walk
of the shared tombstone subtree. -/
def completeRemovalResult (env : Env) (st : St) (id : String) : St :=
  let lsp := st.model.root ++ "/" ++ TINZENITEDIR ++ "/" ++ LOCALDIR ++ "/" ++ REMOVESTOREDIR ++
    "/" ++ id
  let st1 : St := { st with fs := fsWrite st.fs lsp { isDir := false, mtime := env.now, hash := "" } }
  let path0 := (createPathRoot st.model.root).apply
    (st.model.root ++ "/" ++ TINZENITEDIR ++ "/" ++ REMOVEDIR ++ "/" ++ id)
  (partialPopulateMap env st.model.root st1.fs path0.fullPath).foldl (removeOne path0) st1

mutual

/-- Mirror of `Model.updateLocal`: scan the tree, diff against the tracked
set under the scope, then apply creates, actual modifications and removals in
that order, propagating the first error.  The fuel bounds the mutual
recursion through `writeRemovalDir`. -/
def updateLocal : Nat → Env → String → M Unit
  | 0, _, _ => mthrow .outOfFuel
  | fuel + 1, env, scope => fun s =>
    let current := populateMap env s.model s.fs
    let cmr := compareMaps s.model scope current
    let relPath := createPathRoot s.model.root
    (mbind (forEachM (fun sub => applyCreate env (relPath.apply sub) none) cmr.1) (fun _ =>
     mbind (forEachM (fun sub => fun s2 =>
         if isModifiedB s2.model s2.fs (relPath.apply sub) then
           applyModify (relPath.apply sub) none s2
         else (s2, .ok ())) cmr.2.1) (fun _ =>
     forEachM (fun sub => applyRemoveM fuel env (relPath.apply sub) none) cmr.2.2))) s

/-- Mirror of `Model.ApplyRemove` (newest revision): silently ignore removals
inside the tombstone subtree and of illegal paths, else dispatch on origin. -/
def applyRemoveM : Nat → Env → RelativePath → Option ObjectInfo → M Unit
  | 0, _, _, _ => mthrow .outOfFuel
  | fuel + 1, env, path, remObj => fun s =>
    if prefixB (TINZENITEDIR ++ "/" ++ REMOVEDIR) path.sub then (s, .ok ())
    else if path.rootPath ≠ s.model.root ∨ path.sub = "" then (s, .ok ())
    else
      match remObj with
      | none => localRemove fuel env path s
      | some robj => remoteRemove fuel env path robj s

/-- Mirror of `localRemove` (`remove.go`): fetch the record (IllegalFileState
when missing); when the id is already tombstoned, warn and return success
without acting; otherwise hard-delete, publish the tombstone directory, run a
partial scan of it (its failure is only warned about) and emit one Remove
event. -/
def localRemove : Nat → Env → RelativePath → M Unit
  | 0, _, _ => mthrow .outOfFuel
  | fuel + 1, env, path => fun s =>
    match lookupL s.model.staticInfos path.sub with
    | none => (s, .error .illegalFileState)
    | some stin =>
      if isRemovedB s.model s.fs stin.identification then (s, .ok ())
      else
        (mbind (directRemove env path) (fun _ =>
         mbind (writeRemovalDir fuel env stin.identification) (fun _ =>
         mbind (ignoringErr (updateLocal fuel env
             (s.model.root ++ "/" ++ TINZENITEDIR ++ "/" ++ REMOVEDIR ++ "/" ++ stin.identification))) (fun _ =>
         notifyM .remove (some
           { identification := stin.identification,
             name := path.lastElement,
             path := path.sub,
             shadow := false,
             content := stin.content,
             version := stin.version,
             directory := stin.directory }))))) s

/-- Mirror of `remoteRemove` (`remove.go`): hard-delete the path if still
tracked; when no tombstone exists yet fall back to a local remove, otherwise
publish this peer into `done/`. -/
def remoteRemove : Nat → Env → RelativePath → ObjectInfo → M Unit
  | 0, _, _, _ => mthrow .outOfFuel
  | fuel + 1, env, path, robj => fun s =>
    let localFileExists := isTrackedB s.model path.fullPath
    let removalExists := isRemovedB s.model s.fs robj.identification
    (mbind (if localFileExists then directRemove env path else mret ()) (fun _ =>
     if removalExists = false then localRemove fuel env path
     else writeRemovalDir fuel env robj.identification)) s

/-- Mirror of `writeRemovalDir` (`remove.go`): create the tombstone directory
skeleton if absent, write a `check/` marker for every known peer and a
`done/` marker for self (never rewriting existing markers), then run a
partial scan of the tombstone directory. -/
def writeRemovalDir : Nat → Env → String → M Unit
  | 0, _, _ => mthrow .outOfFuel
  | fuel + 1, env, id => fun s =>
    let removeDirectory := s.model.root ++ "/" ++ TINZENITEDIR ++ "/" ++ REMOVEDIR ++ "/" ++ id
    let fs1 := if fileExistsB s.fs removeDirectory = false then
        fsMkdir (fsMkdir (fsMkdir s.fs removeDirectory env.now)
          (removeDirectory ++ "/" ++ REMOVECHECKDIR) env.now)
          (removeDirectory ++ "/" ++ REMOVEDONEDIR) env.now
      else s.fs
    let fs2 := env.peers.foldl (fun acc peer =>
        let p := removeDirectory ++ "/" ++ REMOVECHECKDIR ++ "/" ++ peer
        if fileExistsB acc p then acc
        else fsWrite acc p { isDir := false, mtime := env.now, hash := "" }) fs1
    let donePath := removeDirectory ++ "/" ++ REMOVEDONEDIR ++ "/" ++ s.model.selfID
    let fs3 := if fileExistsB fs2 donePath = false then
        fsWrite fs2 donePath { isDir := false, mtime := env.now, hash := "" }
      else fs2
    updateLocal fuel env removeDirectory { s with fs := fs3 }

end

/-- One iteration of the `checkRemove` loop: refresh the tombstone directory
(propagating its error) and try to complete the removal (its error is only
logged); the orphan and unapplied-removal checks merely warn. -/
def checkRemoveOne (fuel : Nat) (env : Env) (pe : String × FSEntry) : M Unit :=
  mbind (writeRemovalDir fuel env pe.1) (fun _ =>
  ignoringErr (completeTrackedRemoval env pe.1))

/-- Mirror of `checkRemove` (`remove.go`): sweep every shared tombstone, then
sweep the local-only remembered tombstones.  For entries of the local store
older than `removalLocal` the source only logs a debug line (the deletion is
an explicit TODO), so the sweep leaves them on disk. -/
def checkRemove (fuel : Nat) (env : Env) : M Unit := fun s =>
  let removeDir := s.model.root ++ "/" ++ TINZENITEDIR ++ "/" ++ REMOVEDIR
  match readDir s.fs removeDir with
  | none => (s, .error .ioError)
  | some allRemovals =>
    (mbind (forEachM (checkRemoveOne fuel env) allRemovals) (fun _ => fun s2 =>
      let localDir := s2.model.root ++ "/" ++ TINZENITEDIR ++ "/" ++ LOCALDIR ++ "/" ++ REMOVESTOREDIR
      match readDir s2.fs localDir with
      | none => (s2, .error .ioError)
      | some allLocals =>
        let _stale := allLocals.filter (fun pe => removalLocal < env.now - pe.2.mtime)
        (s2, .ok ()))) s

/-- Mirror of `Model.PartialUpdate`: local diff, tombstone sweep, then
persist the snapshot. -/
def partialUpdate (fuel : Nat) (env : Env) (scope : String) : M Unit :=
  mbind (updateLocal fuel env scope) (fun _ =>
  mbind (checkRemove fuel env) (fun _ => storeM env))

/-- Mirror of `Model.Update`: a partial update scoped at the root. -/
def updateModel (fuel : Nat) (env : Env) : M Unit := fun s =>
  partialUpdate fuel env s.model.root s

/-- The body of the `Sync` loop over created paths: skip foreign objects the
remote model does not know and objects tombstoned here; otherwise emit a
Create for the remote descriptor. -/
def syncCreatedOne (m : Model) (fs : FS) (foreignObjs : List (String × ObjectInfo))
    (sub : String) : Option UpdateMessage :=
  match lookupL foreignObjs sub with
  | none => none
  | some remObj =>
    if isRemovedB m fs remObj.identification then none
    else some (createUpdateMessage .create remObj)

/-- The body of the `Sync` loop over modified candidates: when the local
object can be fetched and the remote one is known, emit a Modify exactly when
the remote version is NOT already included in the local one — equal versions
are skipped, strictly newer local state is skipped — and never for a local
directory. -/
def syncModifiedOne (m : Model) (fs : FS) (foreignObjs : List (String × ObjectInfo))
    (sub : String) : Option UpdateMessage :=
  match getInfo m fs (createPath m.root sub) with
  | .error _ => none
  | .ok localObj =>
    match lookupL foreignObjs sub with
    | none => none
    | some remObj =>
      if includesB localObj.version remObj.version = false then
        if localObj.directory then none
        else some (createUpdateMessage .modify remObj)
      else none

/-- The body of the `Sync` loop over removed candidates: emit a Remove (built
from the local descriptor) only when the foreign tree exhibits the shared
tombstone directory for the local object id. -/
def syncRemovedOne (m : Model) (fs : FS) (foreignPaths : List String)
    (sub : String) : Option UpdateMessage :=
  match getInfo m fs (createPath m.root sub) with
  | .error _ => none
  | .ok localObj =>
    if foreignPaths.contains (TINZENITEDIR ++ "/" ++ REMOVEDIR ++ "/" ++ localObj.identification) then
      some (createUpdateMessage .remove localObj)
    else none

/-- Mirror of `Model.Sync` (newest revision): diff the tracked set against the
flattened foreign tree, run the three loops, and sort the result so that
directories precede their contents. -/
def sync (m : Model) (fs : FS) (foreignPaths : List String)
    (foreignObjs : List (String × ObjectInfo)) : List UpdateMessage :=
  let cmr := compareMaps m m.root foreignPaths
  sortUpdateMessages
    (cmr.1.filterMap (syncCreatedOne m fs foreignObjs) ++
     cmr.2.1.filterMap (syncModifiedOne m fs foreignObjs) ++
     cmr.2.2.filterMap (syncRemovedOne m fs foreignPaths))

/-- One step of the `Bootstrap` loop: unknown foreign paths become Creates;
known ones adopt the foreign id and version in the store, and additionally
become Modifies when the content hashes disagree; a tracked path without a
record is an IllegalFileState. -/
def bootstrapStep (acc : Model × List UpdateMessage) (remObj : ObjectInfo) :
    Except GoErr (Model × List UpdateMessage) :=
  let m := acc.1
  if m.trackedPaths.contains remObj.path = false then
    .ok (m, acc.2 ++ [createUpdateMessage .create remObj])
  else
    match lookupL m.staticInfos remObj.path with
    | none => .error .illegalFileState
    | some localstin =>
      let ls1 := { localstin with
                   identification := remObj.identification,
                   version := remObj.version }
      let m1 := { m with staticInfos := insertL m.staticInfos remObj.path ls1 }
      if ls1.content ≠ remObj.content then .ok (m1, acc.2 ++ [createUpdateMessage .modify remObj])
      else .ok (m1, acc.2)

/-- Mirror of `Model.Bootstrap` (newest revision) over the flattened foreign
tree. -/
def bootstrap (m : Model) (foreignObjs : List ObjectInfo) :
    Except GoErr (Model × List UpdateMessage) :=
  match foreignObjs.foldlM bootstrapStep (m, []) with
  | .error e => .error e
  | .ok (m1, ums) => .ok (m1, sortUpdateMessages ums)

/-- Key-set agreement between the tracked-path set and the static-info store:
the invariant the spec states in §3 and §8 (T1). -/
def synced (m : Model) : Prop :=
  ∀ k, m.trackedPaths.contains k = containsKey m.staticInfos k

/-- Executable form of the tracked/static key-set agreement. -/
def syncedB (m : Model) : Bool :=
  m.trackedPaths.all (fun k => containsKey m.staticInfos k) &&
  m.staticInfos.all (fun pe => m.trackedPaths.contains pe.1)

/-- A state computation preserves the tracked/static key-set agreement. -/
def Pres {α : Type} (f : M α) : Prop :=
  ∀ s : St, synced s.model → synced ((f s).1).model

/-- Example record: the tracked root directory. -/
def exStinRoot : Staticinfo :=
  { identification := "idroot", directory := true, content := "", modtime := 1,
    version := [("A", 1)] }

/-- Example record: a tracked file `a.txt`, last scanned at version `A:2`. -/
def exStinA : Staticinfo :=
  { identification := "id1", directory := false, content := "h1", modtime := 5,
    version := [("A", 2)] }

/-- Example model: peer `A` tracking the root and `a.txt` under root `/r`. -/
def exModel : Model :=
  { root := "/r", storePath := "/r/.tinzenite/local", selfID := "A",
    trackedPaths := ["", "a.txt"],
    staticInfos := [("", exStinRoot), ("a.txt", exStinA)] }

/-- Example filesystem matching `exModel` with `a.txt` unmodified on disk. -/
def exFs : FS :=
  [("/r", { isDir := true, mtime := 1, hash := "" }),
   ("/r/a.txt", { isDir := false, mtime := 5, hash := "h1" }),
   ("/r/.tinzenite", { isDir := true, mtime := 1, hash := "" })]

/-- Example environment: one other peer, no ignore rules. -/
def exEnv : Env :=
  { peers := ["B"], ignoreOracle := fun _ => false, idGen := fun _ => "fresh",
    now := 100000 }

/-- Example state over `exModel` and `exFs` with a registered channel. -/
def exSt : St := { model := exModel, fs := exFs, sink := [], idCtr := 0, chanOpen := true }

/-- The relative path of the tracked file `a.txt`. -/
def exPathA : RelativePath := createPath "/r" "a.txt"

/-- Example filesystem in which `a.txt` was edited after the last scan. -/
def exFsMod : FS :=
  [("/r", { isDir := true, mtime := 1, hash := "" }),
   ("/r/a.txt", { isDir := false, mtime := 9, hash := "h9" }),
   ("/r/.tinzenite", { isDir := true, mtime := 1, hash := "" })]

/-- Example state with a locally modified `a.txt`. -/
def exStMod : St := { model := exModel, fs := exFsMod, sink := [], idCtr := 0, chanOpen := true }

/-- Example remote descriptor for `a.txt` carrying an empty version vector. -/
def exRoEmpty : ObjectInfo :=
  { identification := "id1", name := "a.txt", path := "a.txt", shadow := false,
    content := "h2", version := [], directory := false }

/-- Example remote descriptor for `a.txt` whose version `B:1` is incomparable
with the local `A:2`. -/
def exRoInc : ObjectInfo :=
  { identification := "id1", name := "a.txt", path := "a.txt", shadow := false,
    content := "h2", version := [("B", 1)], directory := false }

/-- Example inbound Modify whose version `A:1` is strictly dominated by the
local `A:2`. -/
def exUmMod : UpdateMessage :=
  createUpdateMessage .modify
    { identification := "id1", name := "a.txt", path := "a.txt", shadow := false,
      content := "h2", version := [("A", 1)], directory := false }

/-- Example inbound Modify whose version equals the local one. -/
def exUmModEq : UpdateMessage :=
  createUpdateMessage .modify
    { identification := "id1", name := "a.txt", path := "a.txt", shadow := false,
      content := "h2", version := [("A", 2)], directory := false }

/-- Example inbound Create for the already-tracked path `a.txt`. -/
def exUmCr : UpdateMessage :=
  createUpdateMessage .create
    { identification := "idX", name := "a.txt", path := "a.txt", shadow := false,
      content := "h2", version := [("B", 1)], directory := false }

/-- Example inbound Modify for an untracked path `b.txt`. -/
def exUmModNew : UpdateMessage :=
  createUpdateMessage .modify
    { identification := "idY", name := "b.txt", path := "b.txt", shadow := false,
      content := "h3", version := [("B", 1)], directory := false }

/-- Example filesystem in which the shared tombstone for `id1` exists. -/
def exFsTomb : FS := exFs ++
  [("/r/.tinzenite/removed", { isDir := true, mtime := 1, hash := "" }),
   ("/r/.tinzenite/removed/id1", { isDir := true, mtime := 1, hash := "" })]

/-- Example state in which `a.txt`'s object id is already tombstoned. -/
def exStTomb : St := { model := exModel, fs := exFsTomb, sink := [], idCtr := 0, chanOpen := true }

/-- Example filesystem for the sweep: no shared tombstones, one stale entry
(modification time 0) in the local-only remove store. -/
def exFsSweep : FS :=
  [("/r", { isDir := true, mtime := 1, hash := "" }),
   ("/r/.tinzenite", { isDir := true, mtime := 1, hash := "" }),
   ("/r/.tinzenite/removed", { isDir := true, mtime := 1, hash := "" }),
   ("/r/.tinzenite/local", { isDir := true, mtime := 1, hash := "" }),
   ("/r/.tinzenite/local/removestore", { isDir := true, mtime := 1, hash := "" }),
   ("/r/.tinzenite/local/removestore/oldid", { isDir := false, mtime := 0, hash := "" })]

/-- Example state for the `checkRemove` sweep. -/
def exStSweep : St := { model := exModel, fs := exFsSweep, sink := [], idCtr := 0, chanOpen := false }

/-- Example filesystem with a complete tombstone for `idZ` (the only check
peer `B` has acknowledged under `done/`). -/
def exFsC6 : FS :=
  [("/r", { isDir := true, mtime := 1, hash := "" }),
   ("/r/.tinzenite", { isDir := true, mtime := 1, hash := "" }),
   ("/r/.tinzenite/removed", { isDir := true, mtime := 1, hash := "" }),
   ("/r/.tinzenite/removed/idZ", { isDir := true, mtime := 1, hash := "" }),
   ("/r/.tinzenite/removed/idZ/check", { isDir := true, mtime := 1, hash := "" }),
   ("/r/.tinzenite/removed/idZ/check/B", { isDir := false, mtime := 1, hash := "" }),
   ("/r/.tinzenite/removed/idZ/done", { isDir := true, mtime := 1, hash := "" }),
   ("/r/.tinzenite/removed/idZ/done/B", { isDir := false, mtime := 1, hash := "" }),
   ("/r/.tinzenite/local", { isDir := true, mtime := 1, hash := "" }),
   ("/r/.tinzenite/local/removestore", { isDir := true, mtime := 1, hash := "" })]

/-- Example model tracking the complete tombstone subtree for `idZ`. -/
def exModelC6 : Model :=
  { root := "/r", storePath := "/r/.tinzenite/local", selfID := "A",
    trackedPaths := ["", ".tinzenite", ".tinzenite/removed", ".tinzenite/removed/idZ",
                     ".tinzenite/removed/idZ/check", ".tinzenite/removed/idZ/check/B",
                     ".tinzenite/removed/idZ/done", ".tinzenite/removed/idZ/done/B"],
    staticInfos := [("", exStinRoot)] }

/-- Example state for completing the tracked removal of `idZ`. -/
def exStC6 : St := { model := exModelC6, fs := exFsC6, sink := [], idCtr := 0, chanOpen := false }

/-- Example filesystem in which the tracked `a.txt` is missing from disk. -/
def exFsNoFile : FS :=
  [("/r", { isDir := true, mtime := 1, hash := "" }),
   ("/r/.tinzenite", { isDir := true, mtime := 1, hash := "" })]

/-- Example state over `exFsNoFile`. -/
def exStNoFile : St := { model := exModel, fs := exFsNoFile, sink := [], idCtr := 0, chanOpen := true }

/-- Example foreign descriptor for `a.txt` carrying an update (`A:2, B:1`)
the local replica (`A:2`) does not include. -/
def exRoFor : ObjectInfo :=
  { identification := "id1", name := "a.txt", path := "a.txt", shadow := false,
    content := "h2", version := [("A", 2), ("B", 1)], directory := false }

/-- Example foreign path set for the sync planner. -/
def exFp : List String := ["", "a.txt"]

/-- Example foreign object map for the sync planner. -/
def exFo : List (String × ObjectInfo) := [("a.txt", exRoFor)]

/-- Claim C2, counterexample: an inbound Modify on the tracked path `a.txt`
whose version `A:1` is strictly dominated by (included in, but not equal to)
the local version `A:2` is NOT answered with `IgnoreUpdate`: the filter
accepts the message.  This refutes the claim that every dominated inbound
Modify is ignored. -/
theorem checkMessage_dominated_not_ignored :
    isTrackedB exModel exUmMod.object.path = true ∧
    includesB exStinA.version exUmMod.object.version = true ∧
    equalB exStinA.version exUmMod.object.version = false ∧
    (checkMessage exModel exFs exUmMod).2 = none := by decide

/-- Claim C2, amended: an inbound Modify is answered with `IgnoreUpdate`
exactly by the already-applied check, which for Modify compares the stored
version for EQUALITY with the message version; a merely dominated (strictly
smaller) version is not ignored. -/
theorem checkMessage_equal_version_ignored (m : Model) (fs : FS) (um : UpdateMessage)
    (stin : Staticinfo)
    (hop : um.operation = .modify)
    (hstin : lookupL m.staticInfos um.object.path = some stin)
    (heq : equalB stin.version um.object.version = true) :
    checkMessage m fs um = (um, some .ignoreUpdate) := by
  have hup : hasUpdateB m um = true := by
    unfold hasUpdateB
    rw [hstin, hop]
    simpa using heq
  unfold checkMessage
  rw [hup]
  simp

/-- Claim C2, witness for the amended theorem at a concrete state. -/
theorem checkMessage_equal_version_ignored_witness :
    checkMessage exModel exFs exUmModEq = (exUmModEq, some .ignoreUpdate) :=
  checkMessage_equal_version_ignored exModel exFs exUmModEq exStinA rfl (by decide) (by decide)

/-- Claim C10: `notify` never sends a Modify carrying an empty version vector
to the registered channel; the emission is suppressed and the state (in
particular the sink) is unchanged. -/
theorem notify_empty_modify_suppressed (op : Op) (obj : ObjectInfo) (s : St)
    (hop : op = .modify) (hemp : isEmptyB obj.version = true) :
    notifyM op (some obj) s = (s, .ok ()) := by
  unfold notifyM
  rw [hop]
  simp [hemp]

/-- Claim C10, witness: the concrete empty-version descriptor is dropped. -/
theorem notify_empty_modify_suppressed_witness :
    notifyM .modify (some exRoEmpty) exSt = (exSt, .ok ()) :=
  notify_empty_modify_suppressed .modify exRoEmpty exSt rfl (by decide)

/-- Claim C5: a create applied to an already-tracked path returns Conflict
when a file exists on disk at the path and IllegalFileState when it does not,
and in both cases the state (tracked set and static-info store included) is
unchanged. -/
theorem applyCreate_tracked_rejects (env : Env) (path : RelativePath)
    (remote : Option ObjectInfo) (s : St)
    (htr : isTrackedB s.model path.fullPath = true) :
    (fileExistsB s.fs path.fullPath = true →
      applyCreate env path remote s = (s, .error .conflict)) ∧
    (fileExistsB s.fs path.fullPath = false →
      applyCreate env path remote s = (s, .error .illegalFileState)) := by
  constructor
  · intro hex
    unfold applyCreate
    simp [htr, hex]
  · intro hex
    unfold applyCreate
    simp [htr, hex]

/-- Claim C5, witness: both branches at concrete states. -/
theorem applyCreate_tracked_rejects_witness :
    (applyCreate exEnv exPathA (some exRoInc) exSt = (exSt, .error .conflict)) ∧
    (applyCreate exEnv exPathA none exStNoFile = (exStNoFile, .error .illegalFileState)) :=
  ⟨(applyCreate_tracked_rejects exEnv exPathA (some exRoInc) exSt (by decide)).1 (by decide),
   (applyCreate_tracked_rejects exEnv exPathA none exStNoFile (by decide)).2 (by decide)⟩

/-- Claim C3, counterexample: a remote-origin modify on a tracked, locally
modified path does NOT return Conflict when the remote descriptor carries an
empty version vector: the call quietly succeeds (the source's empty-version
guard short-circuits before the conflict checks). -/
theorem applyModify_empty_version_no_conflict :
    isModifiedB exStMod.model exStMod.fs exPathA = true ∧
    isEmptyB exRoEmpty.version = true ∧
    applyModify exPathA (some exRoEmpty) exStMod = (exStMod, .ok ()) := by decide

/-- Claim C3, amended: for a remote-origin modify whose descriptor carries a
non-empty version and whose path has a static-info record: a locally
modified file yields Conflict, and an unmodified file whose local and remote
versions fail the merge test (are incomparable) yields Conflict; in both
cases the whole state — the static-info store included — is unchanged. -/
theorem applyModify_conflicts (path : RelativePath) (robj : ObjectInfo) (s : St)
    (stin : Staticinfo)
    (hver : isEmptyB robj.version = false)
    (hstin : lookupL s.model.staticInfos path.sub = some stin) :
    (isModifiedB s.model s.fs path = true →
      applyModify path (some robj) s = (s, .error .conflict)) ∧
    (isModifiedB s.model s.fs path = false →
      validB stin.version robj.version s.model.selfID = false →
      applyModify path (some robj) s = (s, .error .conflict)) := by
  constructor
  · intro hmod
    unfold applyModify
    simp [hver, hstin, hmod]
  · intro hmod hval
    unfold applyModify
    simp [hver, hstin, hmod, hval]

/-- Claim C3, witness: both conflict branches at concrete states. -/
theorem applyModify_conflicts_witness :
    (applyModify exPathA (some exRoInc) exStMod = (exStMod, .error .conflict)) ∧
    (applyModify exPathA (some exRoInc) exSt = (exSt, .error .conflict)) :=
  ⟨(applyModify_conflicts exPathA exRoInc exStMod exStinA (by decide) (by decide)).1 (by decide),
   (applyModify_conflicts exPathA exRoInc exSt exStinA (by decide) (by decide)).2
     (by decide) (by decide)⟩

/-- Claim C4, counterexample: an inbound Create on a tracked path is NOT
rewritten to Modify — the already-applied check fires first and the filter
returns `IgnoreUpdate` with the operation still Create. -/
theorem checkMessage_create_on_tracked_not_rewritten :
    isTrackedB exModel exUmCr.object.path = true ∧
    exUmCr.operation = .create ∧
    checkMessage exModel exFs exUmCr = (exUmCr, some .ignoreUpdate) ∧
    ¬ ((checkMessage exModel exFs exUmCr).1).operation = .modify := by decide

/-- Claim C4, amended: an inbound Modify on an untracked path is rewritten in
place to Create before the further checks, provided the already-applied check
did not fire; an inbound Create on a tracked path always fires the
already-applied check and is returned unrewritten with `IgnoreUpdate`, so the
Create-to-Modify rewrite never applies to it. -/
theorem checkMessage_rewrites (m : Model) (fs : FS) (um : UpdateMessage)
    (happ : applyStr m.root um.object.path = um.object.path) :
    (um.operation = .modify → isTrackedB m um.object.path = false →
      hasUpdateB m um = false →
      ((checkMessage m fs um).1) = { um with operation := .create }) ∧
    (um.operation = .create → isTrackedB m um.object.path = true →
      checkMessage m fs um = (um, some .ignoreUpdate)) := by
  constructor
  · intro hop htr hup
    unfold checkMessage
    rw [hup]
    simp only [Bool.false_eq_true, if_false]
    have h1 : (if isTrackedB m um.object.path = false ∧ um.operation = Op.modify then
        { um with operation := Op.create } else um) = { um with operation := Op.create } := by
      simp [htr, hop]
    rw [h1]
    have h2 : (if isTrackedB m { um with operation := Op.create }.object.path = true ∧
        ({ um with operation := Op.create } : UpdateMessage).operation = Op.create then
        { ({ um with operation := Op.create } : UpdateMessage) with operation := Op.modify }
        else { um with operation := Op.create }) = { um with operation := Op.create } := by
      simp [htr]
    rw [h2]
    unfold checkMessageRest
    split_ifs <;> rfl
  · intro hop htr
    have hup : hasUpdateB m um = true := by
      unfold hasUpdateB
      rw [hop]
      unfold isTrackedB at htr
      rw [happ] at htr
      simp only [Bool.and_eq_true] at htr
      exact htr.2
    unfold checkMessage
    rw [hup]
    simp

/-- Claim C4, witness: the Modify-to-Create rewrite at a concrete state. -/
theorem checkMessage_rewrites_witness :
    ((checkMessage exModel exFs exUmModNew).1) = { exUmModNew with operation := .create } :=
  (checkMessage_rewrites exModel exFs exUmModNew (by decide)).1 rfl (by decide) (by decide)

/-- Claim C9, counterexample: when the object id of the path being removed is
already tombstoned, `localRemove` does NOT continue with the removal — it
returns success with the state completely unchanged: the file stays on disk
and tracked, the tombstone directory is untouched and no Remove event is
emitted. -/
theorem localRemove_already_removed_stops :
    lookupL exStTomb.model.staticInfos exPathA.sub = some exStinA ∧
    isRemovedB exStTomb.model exStTomb.fs exStinA.identification = true ∧
    localRemove 5 exEnv exPathA exStTomb = (exStTomb, .ok ()) := by decide

/-- Claim C9, amended: when the object id is already present in the shared or
local-only tombstone store, `localRemove` warns and returns success WITHOUT
performing the removal: the state — disk, tracked set, tombstones and event
sink — is returned unchanged. -/
theorem localRemove_already_removed (fuel : Nat) (env : Env) (path : RelativePath)
    (s : St) (stin : Staticinfo)
    (hstin : lookupL s.model.staticInfos path.sub = some stin)
    (hrem : isRemovedB s.model s.fs stin.identification = true) :
    localRemove (fuel + 1) env path s = (s, .ok ()) := by
  unfold localRemove
  rw [hstin]
  simp [hrem]

/-- Claim C9, witness for the amended theorem at a concrete state. -/
theorem localRemove_already_removed_witness :
    localRemove 5 exEnv exPathA exStTomb = (exStTomb, .ok ()) :=
  localRemove_already_removed 4 exEnv exPathA exStTomb exStinA (by decide) (by decide)

/-- A successful association-list lookup comes from a list member with the
looked-up key. -/
theorem lookupL_mem {α : Type} (l : List (String × α)) (k : String) (v : α)
    (h : lookupL l k = some v) : ∃ p, p ∈ l ∧ p.1 = k ∧ p.2 = v := by
  unfold lookupL at h
  cases hf : l.find? (fun p => p.1 = k) with
  | none => rw [hf] at h; simp at h
  | some p =>
    rw [hf] at h
    simp only [Option.some.injEq] at h
    refine ⟨p, List.mem_of_find?_eq_some hf, ?_, h⟩
    have := List.find?_some hf
    simpa using this

/-- Membership through sorted insertion. -/
theorem mem_insertSorted {α : Type} (le : α → α → Bool) (a x : α) (l : List α) :
    x ∈ insertSorted le a l ↔ x = a ∨ x ∈ l := by
  induction l with
  | nil => simp [insertSorted]
  | cons b bs ih =>
    unfold insertSorted
    by_cases h : le a b = true
    · simp [h]
    · simp only [Bool.not_eq_true] at h
      simp only [h, Bool.false_eq_true, if_false, List.mem_cons, ih]
      tauto

/-- Sorting does not change which elements are in a list. -/
theorem mem_sortBy {α : Type} (le : α → α → Bool) (x : α) (l : List α) :
    x ∈ sortBy le l ↔ x ∈ l := by
  induction l with
  | nil => simp [sortBy]
  | cons a as ih =>
    unfold sortBy
    rw [mem_insertSorted, ih]
    simp

/-- Sorting the planner output does not change which messages are in it. -/
theorem mem_sortUpdateMessages (um : UpdateMessage) (l : List UpdateMessage) :
    um ∈ sortUpdateMessages l ↔ um ∈ l := by
  unfold sortUpdateMessages
  exact mem_sortBy _ um l

/-- Every message the created-loop of the planner emits is a Create. -/
theorem syncCreatedOne_op (m : Model) (fs : FS) (fo : List (String × ObjectInfo))
    (sub : String) (um : UpdateMessage)
    (h : syncCreatedOne m fs fo sub = some um) : um.operation = .create := by
  unfold syncCreatedOne at h
  cases hl : lookupL fo sub with
  | none => rw [hl] at h; simp at h
  | some remObj =>
    rw [hl] at h
    by_cases hR : isRemovedB m fs remObj.identification = true
    · simp [hR] at h
    · simp only [Bool.not_eq_true] at hR
      simp only [hR, Bool.false_eq_true, if_false, Option.some.injEq] at h
      rw [← h]
      rfl

/-- Every message the removed-loop of the planner emits is a Remove. -/
theorem syncRemovedOne_op (m : Model) (fs : FS) (fp : List String)
    (sub : String) (um : UpdateMessage)
    (h : syncRemovedOne m fs fp sub = some um) : um.operation = .remove := by
  unfold syncRemovedOne at h
  cases hg : getInfo m fs (createPath m.root sub) with
  | error e => rw [hg] at h; simp at h
  | ok localObj =>
    rw [hg] at h
    by_cases hc : fp.contains (TINZENITEDIR ++ "/" ++ REMOVEDIR ++ "/" ++ localObj.identification) = true
    · simp only [hc, if_true, Option.some.injEq] at h
      rw [← h]
      rfl
    · simp only [Bool.not_eq_true] at hc
      simp only [hc, Bool.false_eq_true, if_false] at h
      exact Option.noConfusion h

/-- Inversion of the modified-loop body: an emitted message pins down the
local and remote descriptors and the two emission conditions. -/
theorem syncModifiedOne_some (m : Model) (fs : FS) (fo : List (String × ObjectInfo))
    (sub : String) (um : UpdateMessage)
    (h : syncModifiedOne m fs fo sub = some um) :
    ∃ lo ro, getInfo m fs (createPath m.root sub) = .ok lo ∧ lookupL fo sub = some ro ∧
      includesB lo.version ro.version = false ∧ lo.directory = false ∧
      um = createUpdateMessage .modify ro := by
  unfold syncModifiedOne at h
  cases hg : getInfo m fs (createPath m.root sub) with
  | error e => rw [hg] at h; simp at h
  | ok localObj =>
    rw [hg] at h
    cases hl : lookupL fo sub with
    | none => rw [hl] at h; simp at h
    | some remObj =>
      rw [hl] at h
      by_cases hinc : includesB localObj.version remObj.version = false
      · by_cases hdir : localObj.directory = true
        · simp [hinc, hdir] at h
        · simp only [Bool.not_eq_true] at hdir
          simp only [hinc, if_true, hdir, Bool.false_eq_true, if_false, Option.some.injEq] at h
          exact ⟨localObj, remObj, rfl, rfl, hinc, hdir, h.symm⟩
      · simp [hinc] at h

/-- The modified-loop body emits the Modify message when the local object is
fetchable, the remote object known, the remote version not included locally
and the local object not a directory. -/
theorem syncModifiedOne_of (m : Model) (fs : FS) (fo : List (String × ObjectInfo))
    (sub : String) (lo ro : ObjectInfo)
    (hgi : getInfo m fs (createPath m.root sub) = .ok lo)
    (hro : lookupL fo sub = some ro)
    (hinc : includesB lo.version ro.version = false)
    (hdir : lo.directory = false) :
    syncModifiedOne m fs fo sub = some (createUpdateMessage .modify ro) := by
  unfold syncModifiedOne
  rw [hgi, hro]
  simp [hinc, hdir]

/-- Claim C1: for a modified-candidate path of the sync planner whose local
descriptor is fetchable and whose foreign descriptor is known, the planner
emits a Modify update message for the path if and only if the foreign version
is NOT included in the local version and the local object is not a directory;
in particular an included (or equal) foreign version emits nothing, and
directories reported modified are skipped. -/
theorem sync_modified_emits_iff (m : Model) (fs : FS) (fp : List String)
    (fo : List (String × ObjectInfo)) (sub : String) (lo ro : ObjectInfo)
    (hfo : fo.all (fun pe => pe.2.path = pe.1) = true)
    (hmem : sub ∈ (compareMaps m m.root fp).2.1)
    (hgi : getInfo m fs (createPath m.root sub) = .ok lo)
    (hro : lookupL fo sub = some ro) :
    (∃ um, um ∈ sync m fs fp fo ∧ um.operation = .modify ∧ um.object.path = sub) ↔
      (includesB lo.version ro.version = false ∧ lo.directory = false) := by
  have hfop : ∀ pe, pe ∈ fo → pe.2.path = pe.1 := by
    intro pe hpe
    have := List.all_eq_true.mp hfo pe hpe
    simpa using this
  have hrop : ro.path = sub := by
    obtain ⟨p, hp, hk, hv⟩ := lookupL_mem fo sub ro hro
    rw [← hv, hfop p hp, hk]
  constructor
  · rintro ⟨um, hum, hop, hpath⟩
    simp only [sync] at hum
    rw [mem_sortUpdateMessages, List.mem_append, List.mem_append] at hum
    rcases hum with (hum | hum) | hum
    · rw [List.mem_filterMap] at hum
      obtain ⟨a, _, hfa⟩ := hum
      rw [syncCreatedOne_op m fs fo a um hfa] at hop
      cases hop
    · rw [List.mem_filterMap] at hum
      obtain ⟨a, _, hfa⟩ := hum
      obtain ⟨lo2, ro2, hgi2, hro2, hinc2, hdir2, hum2⟩ := syncModifiedOne_some m fs fo a um hfa
      have hpa : a = sub := by
        obtain ⟨p, hp, hk, hv⟩ := lookupL_mem fo a ro2 hro2
        have : um.object.path = a := by
          rw [hum2]
          show ro2.path = a
          rw [← hv, hfop p hp, hk]
        rw [← this, hpath]
      rw [hpa] at hgi2 hro2
      rw [hgi] at hgi2
      rw [hro] at hro2
      injection hgi2 with hlo
      injection hro2 with hro3
      rw [← hlo, ← hro3] at hinc2
      rw [← hlo] at hdir2
      exact ⟨hinc2, hdir2⟩
    · rw [List.mem_filterMap] at hum
      obtain ⟨a, _, hfa⟩ := hum
      rw [syncRemovedOne_op m fs fp a um hfa] at hop
      cases hop
  · rintro ⟨hinc, hdir⟩
    refine ⟨createUpdateMessage .modify ro, ?_, rfl, hrop⟩
    simp only [sync]
    rw [mem_sortUpdateMessages, List.mem_append, List.mem_append]
    refine Or.inl (Or.inr ?_)
    rw [List.mem_filterMap]
    exact ⟨sub, hmem, syncModifiedOne_of m fs fo sub lo ro hgi hro hinc hdir⟩

/-- Claim C1, witness: the iff applied at a concrete modified candidate. -/
theorem sync_modified_emits_iff_witness :
    ((∃ um, um ∈ sync exModel exFs exFp exFo ∧ um.operation = .modify ∧
        um.object.path = "a.txt") ↔
      (includesB [("A", 2)] exRoFor.version = false ∧ false = false)) :=
  sync_modified_emits_iff exModel exFs exFp exFo "a.txt"
    { identification := "id1", name := "a.txt", path := "a.txt", shadow := false,
      version := [("A", 2)], directory := false, content := "h1" } exRoFor
    (by decide) (by decide) (by decide) (by decide)

/-- Claim C7: the periodic sweep does NOT delete stale entries of the
local-only remove store.  At a state whose only remove-store entry is older
than `removalLocal`, `checkRemove` succeeds leaving the state — the entry
included — unchanged (the deletion is an unimplemented TODO in
`remove.go`). -/
theorem checkRemove_stale_local_entry_not_deleted :
    removalLocal <
      exEnv.now - ((fsLookup exFsSweep "/r/.tinzenite/local/removestore/oldid").getD
        { isDir := false, mtime := 0, hash := "" }).mtime ∧
    checkRemove 5 exEnv exStSweep = (exStSweep, .ok ()) ∧
    fileExistsB ((checkRemove 5 exEnv exStSweep).1).fs
      "/r/.tinzenite/local/removestore/oldid" = true := by decide

/-- Membership form of list containment for strings. -/
theorem containsL_iff (l : List String) (x : String) : l.contains x = true ↔ x ∈ l := by
  simp [List.contains_iff_exists_mem_beq]

/-- Membership form of association-list key containment. -/
theorem containsKey_iff {α : Type} (l : List (String × α)) (k : String) :
    containsKey l k = true ↔ ∃ p, p ∈ l ∧ p.1 = k := by
  unfold containsKey lookupL
  cases hf : l.find? (fun p => p.1 = k) with
  | none =>
    simp only [Option.isSome_none, Bool.false_eq_true, false_iff]
    rintro ⟨p, hp, hk⟩
    have : (l.find? (fun p => p.1 = k)).isSome = true :=
      List.find?_isSome.mpr ⟨p, hp, by simpa using hk⟩
    rw [hf] at this
    simp at this
  | some p =>
    simp only [Option.isSome_some, true_iff]
    refine ⟨p, List.mem_of_find?_eq_some hf, ?_⟩
    have := List.find?_some hf
    simpa using this

/-- Membership form of on-disk existence. -/
theorem fileExistsB_iff (fs : FS) (p : String) :
    fileExistsB fs p = true ↔ ∃ pe, pe ∈ fs ∧ pe.1 = p := by
  unfold fileExistsB fsLookup
  exact containsKey_iff fs p

/-- Insertion reaches the inserted key. -/
theorem lookupL_insertL_self {α : Type} (l : List (String × α)) (k : String) (v : α) :
    lookupL (insertL l k v) k = some v := by
  induction l with
  | nil => simp [insertL, lookupL]
  | cons p rest ih =>
    unfold insertL
    by_cases h : p.1 = k
    · simp [lookupL, h]
    · simp only [h, if_false]
      unfold lookupL
      rw [List.find?_cons_of_neg _ (by simpa using h)]
      exact ih

/-- Members of an insertion come from the original list or are the inserted
pair. -/
theorem mem_insertL {α : Type} (l : List (String × α)) (k : String) (v : α) (pe : String × α)
    (h : pe ∈ insertL l k v) : pe ∈ l ∨ pe = (k, v) := by
  induction l with
  | nil => simpa [insertL] using h
  | cons p rest ih =>
    unfold insertL at h
    by_cases hk : p.1 = k
    · simp only [hk, if_true, List.mem_cons] at h
      rcases h with h | h
      · exact Or.inr h
      · exact Or.inl (List.mem_cons_of_mem _ h)
    · simp only [hk, if_false, List.mem_cons] at h
      rcases h with h | h
      · exact Or.inl (by simp [h])
      · rcases ih h with h2 | h2
        · exact Or.inl (List.mem_cons_of_mem _ h2)
        · exact Or.inr h2

/-- Surviving members: a pair whose key differs from the inserted one stays
in the list through an insertion. -/
theorem mem_insertL_of_mem {α : Type} (l : List (String × α)) (k : String) (v : α)
    (pe : String × α) (hpe : pe ∈ l) (hne : ¬ pe.1 = k) : pe ∈ insertL l k v := by
  induction l with
  | nil => simp at hpe
  | cons q rest ih =>
    unfold insertL
    by_cases hqk : q.1 = k
    · simp only [hqk, if_true]
      rcases List.mem_cons.mp hpe with he | he
      · exfalso
        apply hne
        rw [he, hqk]
      · exact List.mem_cons_of_mem _ he
    · simp only [hqk, if_false]
      rcases List.mem_cons.mp hpe with he | he
      · rw [he]
        exact List.mem_cons_self _ _
      · exact List.mem_cons_of_mem _ (ih he)

/-- Insertion preserves the presence of every key. -/
theorem containsKey_insertL_of {α : Type} (l : List (String × α)) (k p : String) (v : α)
    (h : containsKey l p = true) : containsKey (insertL l k v) p = true := by
  rcases (containsKey_iff l p).mp h with ⟨pe, hpe, hk⟩
  apply (containsKey_iff _ p).mpr
  by_cases hpk : p = k
  · rcases lookupL_mem _ _ _ (lookupL_insertL_self l k v) with ⟨q, hq, hq1, _⟩
    exact ⟨q, hq, by rw [hq1, hpk]⟩
  · exact ⟨pe, mem_insertL_of_mem l k v pe hpe (by rw [hk]; exact hpk), hk⟩

/-- Boolean prefix in terms of the list-prefix relation. -/
theorem prefixB_iff (p s : String) : prefixB p s = true ↔ p.data <+: s.data := by
  unfold prefixB
  exact List.isPrefixOf_iff_prefix

/-- A slash-extended prefix is strictly shorter than what it prefixes. -/
theorem prefixB_slash_length (a b : String) (h : prefixB (a ++ "/") b = true) :
    strLen a < strLen b := by
  have hp := List.IsPrefix.length_le ((prefixB_iff _ _).mp h)
  rw [String.data_append, List.length_append] at hp
  have hone : ("/" : String).data.length = 1 := rfl
  rw [hone] at hp
  unfold strLen
  omega

/-- The subtree relation is transitive. -/
theorem underB_trans (a b c : String) (hab : underB a b = true) (hbc : underB b c = true) :
    underB a c = true := by
  unfold underB at hab hbc ⊢
  simp only [Bool.or_eq_true, decide_eq_true_eq] at hab hbc ⊢
  rcases hab with hab | hab
  · rw [← hab]
    exact hbc
  · rcases hbc with hbc | hbc
    · refine Or.inr ?_
      rw [hbc]
      exact hab
    · refine Or.inr ?_
      rw [prefixB_iff] at hab hbc ⊢
      refine List.IsPrefix.trans hab (List.IsPrefix.trans ?_ hbc)
      rw [String.data_append]
      exact List.prefix_append _ _

/-- A strict subpath of `a` cannot have `a`'s own subtree under it. -/
theorem underB_strict_not_rev (a q : String) (hq : underB a q = true) (hne : ¬ q = a) :
    underB q a = false := by
  unfold underB at hq
  simp only [Bool.or_eq_true, decide_eq_true_eq] at hq
  rcases hq with hq | hq
  · exact absurd hq hne
  · have hlen := prefixB_slash_length a q hq
    unfold underB
    have h1 : decide (a = q) = false := by
      simp only [decide_eq_false_iff_not]
      intro he
      exact hne he.symm
    have h2 : prefixB (q ++ "/") a = false := by
      apply Bool.eq_false_iff.mpr
      intro hp
      have := prefixB_slash_length q a hp
      omega
    rw [h1, h2]
    rfl

/-- Reconstruction: a path carrying `root + "/"` as prefix is rebuilt from its
stripped subpath. -/
theorem applyStr_reconstruct (root p : String) (h : prefixB (root ++ "/") p = true) :
    root ++ "/" ++ applyStr root p = p := by
  have hne : ¬ p = root := by
    intro he
    have := prefixB_slash_length root p h
    rw [he] at this
    omega
  unfold applyStr
  simp only [hne, if_false, h, if_true]
  rcases (prefixB_iff _ _).mp h with ⟨rest, hrest⟩
  unfold dropStr strLen
  apply String.ext
  rw [String.data_append, String.data_append]
  show root.data ++ ("/" : String).data ++ (p.data.drop (root.data.length + 1)) = p.data
  rw [← hrest, String.data_append]
  have h1 : ((root.data ++ ("/" : String).data) ++ rest).drop (root.data.length + 1) = rest := by
    have h2 : (root.data ++ ("/" : String).data).length = root.data.length + 1 := by
      simp [List.length_append]
    rw [← h2, List.drop_left]
  rw [h1]

/-- Stripping an explicitly root-prefixed path returns its subpath. -/
theorem applyStr_append (root k : String) : applyStr root (root ++ "/" ++ k) = k := by
  have hpre : prefixB (root ++ "/") (root ++ "/" ++ k) = true := by
    rw [prefixB_iff, String.data_append]
    exact List.prefix_append _ _
  have := applyStr_reconstruct root (root ++ "/" ++ k) hpre
  have happ : root ++ "/" ++ applyStr root (root ++ "/" ++ k) = root ++ "/" ++ k := this
  apply String.ext
  have hd := congrArg String.data happ
  rw [String.data_append, String.data_append] at hd
  exact List.append_cancel_left hd

/-- With an all-pass ignore matcher, the walk prunes nothing. -/
theorem walkExcluded_false (env : Env) (b p : String)
    (hig : env.ignoreOracle = fun _ => false) : walkExcluded env b p = false := by
  unfold walkExcluded
  rw [hig]
  simp

/-- With an all-pass ignore matcher, the walk collects exactly the stripped
subpaths of the on-disk entries inside the resolved subtree. -/
theorem mem_partialPopulateMap (env : Env) (root : String) (fs : FS) (rp : String)
    (w : String) (hig : env.ignoreOracle = fun _ => false) :
    w ∈ partialPopulateMap env root fs rp ↔
      ∃ pe, pe ∈ fs ∧ underB (((createPathRoot root).apply rp).fullPath) pe.1 = true ∧
        w = applyStr root pe.1 := by
  unfold partialPopulateMap
  rw [List.mem_filterMap]
  constructor
  · rintro ⟨pe, hpe, hf⟩
    rw [walkExcluded_false env _ _ hig] at hf
    simp only [Bool.not_false, Bool.and_true] at hf
    by_cases hu : underB (((createPathRoot root).apply rp).fullPath) pe.1 = true
    · rw [hu] at hf
      simp only [if_true, Option.some.injEq] at hf
      exact ⟨pe, hpe, hu, hf.symm⟩
    · simp only [Bool.not_eq_true] at hu
      rw [hu] at hf
      simp at hf
  · rintro ⟨pe, hpe, hu, hw⟩
    refine ⟨pe, hpe, ?_⟩
    rw [walkExcluded_false env _ _ hig, hu]
    simp [hw]

/-- Subtree deletion only ever removes entries. -/
theorem fileExistsB_removeSubtree_then (fs : FS) (q t : String)
    (h : fileExistsB (fsRemoveSubtree fs q) t = true) : fileExistsB fs t = true := by
  rcases (fileExistsB_iff _ _).mp h with ⟨pe, hpe, hk⟩
  exact (fileExistsB_iff _ _).mpr ⟨pe, (List.mem_filter.mp hpe).1, hk⟩

/-- Subtree deletion removes everything at or below its target. -/
theorem fileExistsB_removeSubtree_kill (fs : FS) (q t : String)
    (hu : underB q t = true) : fileExistsB (fsRemoveSubtree fs q) t = false := by
  cases hf : fileExistsB (fsRemoveSubtree fs q) t with
  | false => rfl
  | true =>
    exfalso
    rcases (fileExistsB_iff _ _).mp hf with ⟨pe, hpe, hk⟩
    have := (List.mem_filter.mp hpe).2
    rw [hk, hu] at this
    simp at this

/-- Subtree deletion keeps every entry outside its target subtree. -/
theorem fileExistsB_removeSubtree_preserved (fs : FS) (q t : String)
    (h : fileExistsB fs t = true) (hu : underB q t = false) :
    fileExistsB (fsRemoveSubtree fs q) t = true := by
  rcases (fileExistsB_iff _ _).mp h with ⟨pe, hpe, hk⟩
  refine (fileExistsB_iff _ _).mpr ⟨pe, List.mem_filter.mpr ⟨hpe, ?_⟩, hk⟩
  rw [hk, hu]
  simp

/-- One `directRemove` iteration only ever removes disk entries. -/
theorem removeOne_fs_then (path : RelativePath) (s : St) (obj t : String)
    (h : fileExistsB (removeOne path s obj).fs t = true) : fileExistsB s.fs t = true := by
  unfold removeOne at h
  by_cases hg : fileExistsB s.fs (path.apply obj).fullPath = true
  · simp only [hg, if_true] at h
    exact fileExistsB_removeSubtree_then _ _ _ h
  · simp only [Bool.not_eq_true] at hg
    simp only [hg, Bool.false_eq_true, if_false] at h
    exact h

/-- One `directRemove` iteration keeps entries outside its target subtree. -/
theorem removeOne_fs_preserved (path : RelativePath) (s : St) (obj t : String)
    (h : fileExistsB s.fs t = true) (hu : underB ((path.apply obj).fullPath) t = false) :
    fileExistsB (removeOne path s obj).fs t = true := by
  unfold removeOne
  by_cases hg : fileExistsB s.fs (path.apply obj).fullPath = true
  · simp only [hg, if_true]
    exact fileExistsB_removeSubtree_preserved _ _ _ h hu
  · simp only [Bool.not_eq_true] at hg
    simp only [hg, Bool.false_eq_true, if_false]
    exact h

/-- One `directRemove` iteration whose target still exists deletes the whole
target subtree from disk. -/
theorem removeOne_fs_kill (path : RelativePath) (s : St) (obj t : String)
    (hex : fileExistsB s.fs (path.apply obj).fullPath = true)
    (hu : underB ((path.apply obj).fullPath) t = true) :
    fileExistsB (removeOne path s obj).fs t = false := by
  unfold removeOne
  simp only [hex, if_true]
  exact fileExistsB_removeSubtree_kill _ _ _ hu

/-- Membership through tracked-set deletion. -/
theorem mem_eraseTrk (l : List String) (k x : String) :
    x ∈ eraseTrk l k ↔ x ∈ l ∧ ¬ x = k := by
  unfold eraseTrk
  rw [List.mem_filter]
  simp

/-- One `directRemove` iteration only ever removes tracked paths. -/
theorem removeOne_tracked_then (path : RelativePath) (s : St) (obj k : String)
    (h : k ∈ (removeOne path s obj).model.trackedPaths) : k ∈ s.model.trackedPaths := by
  unfold removeOne at h
  exact ((mem_eraseTrk _ _ _).mp h).1

/-- One `directRemove` iteration drops its own subpath from the tracked
set. -/
theorem removeOne_tracked_kill (path : RelativePath) (s : St) (obj : String) :
    applyStr path.root obj ∉ (removeOne path s obj).model.trackedPaths := by
  intro h
  unfold removeOne at h
  exact ((mem_eraseTrk _ _ _).mp h).2 rfl

/-- The `directRemove` fold only ever removes disk entries. -/
theorem fold_fs_then (path : RelativePath) :
    ∀ (l : List String) (s : St) (t : String),
      fileExistsB ((l.foldl (removeOne path) s)).fs t = true → fileExistsB s.fs t = true := by
  intro l
  induction l with
  | nil => intro s t h; exact h
  | cons w rest ih =>
    intro s t h
    exact removeOne_fs_then path s w t (ih (removeOne path s w) t h)

/-- The `directRemove` fold keeps entries outside all of its targets. -/
theorem fold_fs_preserved (path : RelativePath) :
    ∀ (l : List String) (s : St) (t : String),
      fileExistsB s.fs t = true →
      (∀ w ∈ l, underB ((path.apply w).fullPath) t = false) →
      fileExistsB ((l.foldl (removeOne path) s)).fs t = true := by
  intro l
  induction l with
  | nil => intro s t h _; exact h
  | cons w rest ih =>
    intro s t h hall
    exact ih (removeOne path s w) t
      (removeOne_fs_preserved path s w t h (hall w (List.mem_cons_self _ _)))
      (fun x hx => hall x (List.mem_cons_of_mem _ hx))

/-- The `directRemove` fold only ever removes tracked paths. -/
theorem fold_tracked_then (path : RelativePath) :
    ∀ (l : List String) (s : St) (k : String),
      k ∈ ((l.foldl (removeOne path) s)).model.trackedPaths → k ∈ s.model.trackedPaths := by
  intro l
  induction l with
  | nil => intro s k h; exact h
  | cons w rest ih =>
    intro s k h
    exact removeOne_tracked_then path s w k (ih (removeOne path s w) k h)

/-- A walked subpath that strips to itself is gone from the tracked set after
the `directRemove` fold. -/
theorem fold_tracked_kill (path : RelativePath) :
    ∀ (l : List String) (s : St) (k : String), k ∈ l → applyStr path.root k = k →
      k ∉ ((l.foldl (removeOne path) s)).model.trackedPaths := by
  intro l
  induction l with
  | nil => intro s k h; simp at h
  | cons w rest ih =>
    intro s k hk hstr h
    rcases List.mem_cons.mp hk with he | he
    · subst he
      have hgone : k ∉ (removeOne path s k).model.trackedPaths := by
        have h0 := removeOne_tracked_kill path s k
        rw [hstr] at h0
        exact h0
      exact hgone (fold_tracked_then path rest (removeOne path s k) k h)
    · exact ih (removeOne path s w) k he hstr h

/-- When some walked element targets exactly the subtree root `orp` (which is
still on disk) and every walked element targets inside `orp`, the
`directRemove` fold wipes the whole `orp` subtree from disk. -/
theorem fold_fs_kills (path : RelativePath) (orp : String) :
    ∀ (l : List String) (s : St),
      (∀ w ∈ l, underB orp ((path.apply w).fullPath) = true) →
      ((∃ w0, w0 ∈ l ∧ (path.apply w0).fullPath = orp) ∧ fileExistsB s.fs orp = true ∨
        (∀ p, underB orp p = true → fileExistsB s.fs p = false)) →
      ∀ p, underB orp p = true → fileExistsB ((l.foldl (removeOne path) s)).fs p = false := by
  intro l
  induction l with
  | nil =>
    intro s _ hcase p hp
    rcases hcase with ⟨⟨w0, hw0, _⟩, _⟩ | hgone
    · simp at hw0
    · exact hgone p hp
  | cons w rest ih =>
    intro s hall hcase p hp
    have hqu : underB orp ((path.apply w).fullPath) = true := hall w (List.mem_cons_self _ _)
    have htail : ∀ x ∈ rest, underB orp ((path.apply x).fullPath) = true :=
      fun x hx => hall x (List.mem_cons_of_mem _ hx)
    rcases hcase with ⟨⟨w0, hw0, hw0t⟩, hex⟩ | hgone
    · by_cases hq : (path.apply w).fullPath = orp
      · refine ih (removeOne path s w) htail (Or.inr ?_) p hp
        intro t ht
        apply removeOne_fs_kill path s w t
        · rw [hq]
          exact hex
        · rw [hq]
          exact ht
      · have hsurv : fileExistsB (removeOne path s w).fs orp = true :=
          removeOne_fs_preserved path s w orp hex
            (underB_strict_not_rev orp ((path.apply w).fullPath) hqu hq)
        have hw0r : w0 ∈ rest := by
          rcases List.mem_cons.mp hw0 with he | he
          · exfalso
            rw [← he] at hq
            exact hq hw0t
          · exact he
        exact ih (removeOne path s w) htail (Or.inl ⟨⟨w0, hw0r, hw0t⟩, hsurv⟩) p hp
    · refine ih (removeOne path s w) htail (Or.inr ?_) p hp
      intro t ht
      cases hf : fileExistsB (removeOne path s w).fs t with
      | false => rfl
      | true =>
        exfalso
        have := removeOne_fs_then path s w t hf
        rw [hgone t ht] at this
        exact absurd this (by simp)

/-- Every path is at the root of its own subtree. -/
theorem underB_refl (a : String) : underB a a = true := by
  unfold underB
  simp

/-- Evaluation of the removal-completion step once the `check/` directory
listing is known: incomplete tombstones leave the state unchanged, complete
ones run the local-tombstone write followed by the `directRemove` fold. -/
theorem completeTrackedRemoval_eval (env : Env) (st : St) (id : String)
    (checkList : List (String × FSEntry))
    (hrd : readDir st.fs (st.model.root ++ "/" ++ TINZENITEDIR ++ "/" ++ REMOVEDIR ++ "/" ++ id ++
      "/" ++ REMOVECHECKDIR) = some checkList) :
    completeTrackedRemoval env id st =
      (if checkList.all (fun pe => fileExistsB st.fs
          (st.model.root ++ "/" ++ TINZENITEDIR ++ "/" ++ REMOVEDIR ++ "/" ++ id ++ "/" ++
            REMOVEDONEDIR ++ "/" ++ pe.1)) then
        (completeRemovalResult env st id, .ok ())
      else (st, .ok ())) := by
  simp only [completeTrackedRemoval, completeRemovalResult]
  rw [hrd]
  rfl

/-- Claim C6: in the removal-completion step, the shared tombstone for `id`
is judged complete iff for every peer marker under `check/` a marker of the
same name exists under `done/`.  When incomplete, nothing changes.  Exactly
when complete, the local-only remembered tombstone
`RESV/local/remove-store/<id>` is written (it is present afterwards) and the
entire shared `RESV/remove/<id>` subtree is hard-deleted: no path at or below
it survives on disk, and every tracked subpath that lay inside it on disk is
dropped from the tracked set.  The side conditions say that the ignore
matcher passes everything, that the tombstone directory is on disk, that the
local store path is not inside the tombstone subtree, and that the entries
inside the subtree round-trip through the path abstraction (true of every
well-formed path). -/
theorem completeTrackedRemoval_spec (env : Env) (st : St) (id : String)
    (checkList : List (String × FSEntry))
    (hig : env.ignoreOracle = fun _ => false)
    (hrd : readDir st.fs
      (st.model.root ++ "/" ++ TINZENITEDIR ++ "/" ++ REMOVEDIR ++ "/" ++ id ++ "/" ++
        REMOVECHECKDIR) = some checkList) :
    (checkList.all (fun pe => fileExistsB st.fs
        (st.model.root ++ "/" ++ TINZENITEDIR ++ "/" ++ REMOVEDIR ++ "/" ++ id ++ "/" ++
          REMOVEDONEDIR ++ "/" ++ pe.1)) = false →
      completeTrackedRemoval env id st = (st, .ok ())) ∧
    (checkList.all (fun pe => fileExistsB st.fs
        (st.model.root ++ "/" ++ TINZENITEDIR ++ "/" ++ REMOVEDIR ++ "/" ++ id ++ "/" ++
          REMOVEDONEDIR ++ "/" ++ pe.1)) = true →
      fileExistsB st.fs
        (st.model.root ++ "/" ++ TINZENITEDIR ++ "/" ++ REMOVEDIR ++ "/" ++ id) = true →
      underB (st.model.root ++ "/" ++ TINZENITEDIR ++ "/" ++ REMOVEDIR ++ "/" ++ id)
        (st.model.root ++ "/" ++ TINZENITEDIR ++ "/" ++ LOCALDIR ++ "/" ++ REMOVESTOREDIR ++
          "/" ++ id) = false →
      st.fs.all (fun pe =>
        !(underB (st.model.root ++ "/" ++ TINZENITEDIR ++ "/" ++ REMOVEDIR ++ "/" ++ id) pe.1) ||
        (((createPathRoot st.model.root).apply pe.1).fullPath == pe.1)) = true →
      st.fs.all (fun pe =>
        !(underB (st.model.root ++ "/" ++ TINZENITEDIR ++ "/" ++ REMOVEDIR ++ "/" ++ id) pe.1) ||
        (applyStr st.model.root (applyStr st.model.root pe.1) == applyStr st.model.root pe.1)) = true →
      ∃ st2, completeTrackedRemoval env id st = (st2, .ok ()) ∧
        fileExistsB st2.fs
          (st.model.root ++ "/" ++ TINZENITEDIR ++ "/" ++ LOCALDIR ++ "/" ++ REMOVESTOREDIR ++
            "/" ++ id) = true ∧
        (∀ p, underB (st.model.root ++ "/" ++ TINZENITEDIR ++ "/" ++ REMOVEDIR ++ "/" ++ id) p = true →
          fileExistsB st2.fs p = false) ∧
        (∀ k, applyStr st.model.root k = k →
          fileExistsB st.fs (st.model.root ++ "/" ++ k) = true →
          underB (st.model.root ++ "/" ++ TINZENITEDIR ++ "/" ++ REMOVEDIR ++ "/" ++ id)
            (st.model.root ++ "/" ++ k) = true →
          k ∉ st2.model.trackedPaths)) := by
  have heval := completeTrackedRemoval_eval env st id checkList hrd
  constructor
  · intro hcomp
    rw [heval, hcomp]
    simp
  · intro hcomp horp hlsp hclean hstrip
    rw [heval, hcomp, if_pos rfl]
    have hcleanL := List.all_eq_true.mp hclean
    have hstripL := List.all_eq_true.mp hstrip
    simp only [completeRemovalResult]
    set root := st.model.root with hroot
    set orp := root ++ "/" ++ TINZENITEDIR ++ "/" ++ REMOVEDIR ++ "/" ++ id with horpdef
    set lsp := root ++ "/" ++ TINZENITEDIR ++ "/" ++ LOCALDIR ++ "/" ++ REMOVESTOREDIR ++ "/" ++ id
      with hlspdef
    set entry : FSEntry := { isDir := false, mtime := env.now, hash := "" } with hentry
    set fsw := fsWrite st.fs lsp entry with hfsw
    set path0 : RelativePath := (createPathRoot root).apply orp with hpath0
    -- the tombstone directory entry itself
    obtain ⟨pe0, hpe0, hpe0k⟩ := (fileExistsB_iff st.fs orp).mp horp
    have hpe0u : underB orp pe0.1 = true := by rw [hpe0k]; exact underB_refl orp
    have hpe0clean : ((createPathRoot root).apply pe0.1).fullPath = pe0.1 := by
      have h := hcleanL pe0 hpe0
      rw [hpe0u] at h
      simpa using h
    have hfull0 : path0.fullPath = orp := by
      rw [hpath0, ← hpe0k]
      exact hpe0clean
    have hbase : ((createPathRoot root).apply path0.fullPath).fullPath = orp := by
      rw [hfull0, ← hpath0]
      exact hfull0
    -- orp and lsp differ
    have hne_orp_lsp : ¬ orp = lsp := by
      intro he
      rw [← he, underB_refl orp] at hlsp
      exact absurd hlsp (by simp)
    set walked := partialPopulateMap env root fsw path0.fullPath with hwalked
    set st1 : St := { st with fs := fsw } with hst1
    set st2 := walked.foldl (removeOne path0) st1 with hst2
    -- membership of post-write entries under orp comes from st.fs
    have hmem_fsw : ∀ pe, pe ∈ fsw → underB orp pe.1 = true → pe ∈ st.fs := by
      intro pe hpe hu
      rcases mem_insertL st.fs lsp entry pe hpe with h | h
      · exact h
      · exfalso
        rw [h] at hu
        simp only at hu
        rw [hlsp] at hu
        exact absurd hu (by simp)
    -- every walked element targets inside orp
    have hwalk_target : ∀ w ∈ walked,
        underB orp ((path0.apply w).fullPath) = true := by
      intro w hw
      rw [hwalked, mem_partialPopulateMap env root fsw path0.fullPath w hig] at hw
      obtain ⟨pe, hpe, hu, hws⟩ := hw
      rw [hbase] at hu
      have hpe_st : pe ∈ st.fs := hmem_fsw pe hpe hu
      have hcl : ((createPathRoot root).apply pe.1).fullPath = pe.1 := by
        have h := hcleanL pe hpe_st
        rw [hu] at h
        simpa using h
      have hstr : applyStr root (applyStr root pe.1) = applyStr root pe.1 := by
        have h := hstripL pe hpe_st
        rw [hu] at h
        simpa using h
      have htarget : (path0.apply w).fullPath = pe.1 := by
        rw [hws]
        have happ0 : path0.apply (applyStr root pe.1) = (createPathRoot root).apply pe.1 := by
          rw [hpath0]
          unfold RelativePath.apply createPathRoot
          simp only
          rw [hstr]
        rw [happ0, hcl]
      rw [htarget]
      exact hu
    -- the root of the subtree is walked and targets orp exactly
    have hpe0fsw : pe0 ∈ fsw := by
      apply mem_insertL_of_mem st.fs lsp entry pe0 hpe0
      rw [hpe0k]
      exact hne_orp_lsp
    have hw0mem : applyStr root orp ∈ walked := by
      rw [hwalked, mem_partialPopulateMap env root fsw path0.fullPath _ hig]
      refine ⟨pe0, hpe0fsw, ?_, by rw [hpe0k]⟩
      rw [hbase]
      exact hpe0u
    have hw0target : (path0.apply (applyStr root orp)).fullPath = orp := by
      have hstr0 : applyStr root (applyStr root orp) = applyStr root orp := by
        have h := hstripL pe0 hpe0
        rw [hpe0u] at h
        rw [← hpe0k]
        simpa using h
      have happ0 : path0.apply (applyStr root orp) = path0 := by
        rw [hpath0]
        unfold RelativePath.apply createPathRoot
        simp only
        rw [hstr0]
      rw [happ0, hfull0]
    have hex1 : fileExistsB fsw orp = true := by
      rw [hfsw]
      exact containsKey_insertL_of st.fs lsp orp entry horp
    have hst1fs : st1.fs = fsw := rfl
    refine ⟨st2, rfl, ?_, ?_, ?_⟩
    · -- the local tombstone survives the fold
      have hlsp1 : fileExistsB st1.fs lsp = true := by
        rw [hst1fs, hfsw]
        show (lookupL (insertL st.fs lsp entry) lsp).isSome = true
        rw [lookupL_insertL_self]
        rfl
      rw [hst2]
      apply fold_fs_preserved path0 walked st1 lsp hlsp1
      intro w hw
      cases hu : underB ((path0.apply w).fullPath) lsp with
      | false => rfl
      | true =>
        exfalso
        have h := underB_trans orp ((path0.apply w).fullPath) lsp (hwalk_target w hw) hu
        rw [hlsp] at h
        exact absurd h (by simp)
    · -- everything at or below orp is gone from disk
      intro p hp
      rw [hst2]
      refine fold_fs_kills path0 orp walked st1 hwalk_target
        (Or.inl ⟨⟨applyStr root orp, hw0mem, hw0target⟩, ?_⟩) p hp
      rw [hst1fs]
      exact hex1
    · -- tracked subpaths inside the subtree are dropped
      intro k hks hkfs hku
      obtain ⟨pek, hpek, hpekk⟩ := (fileExistsB_iff st.fs (root ++ "/" ++ k)).mp hkfs
      have hpeku : underB orp pek.1 = true := by rw [hpekk]; exact hku
      have hpekw : pek ∈ fsw := by
        apply mem_insertL_of_mem st.fs lsp entry pek hpek
        rw [hpekk]
        intro he
        rw [← he, hku] at hlsp
        exact absurd hlsp (by simp)
      have hkw : k ∈ walked := by
        rw [hwalked, mem_partialPopulateMap env root fsw path0.fullPath _ hig]
        refine ⟨pek, hpekw, ?_, ?_⟩
        · rw [hbase]
          exact hpeku
        · rw [hpekk, applyStr_append]
      rw [hst2]
      apply fold_tracked_kill path0 walked st1 k hkw
      rw [hpath0]
      exact hks

/-- Claim C6, witness: completing the tombstone of `idZ` at a concrete state
with one acknowledged check peer. -/
theorem completeTrackedRemoval_spec_witness :
    ∃ st2, completeTrackedRemoval exEnv "idZ" exStC6 = (st2, .ok ()) ∧
      fileExistsB st2.fs
        (exStC6.model.root ++ "/" ++ TINZENITEDIR ++ "/" ++ LOCALDIR ++ "/" ++ REMOVESTOREDIR ++
          "/" ++ "idZ") = true ∧
      (∀ p, underB (exStC6.model.root ++ "/" ++ TINZENITEDIR ++ "/" ++ REMOVEDIR ++ "/" ++ "idZ")
          p = true → fileExistsB st2.fs p = false) ∧
      (∀ k, applyStr exStC6.model.root k = k →
        fileExistsB exStC6.fs (exStC6.model.root ++ "/" ++ k) = true →
        underB (exStC6.model.root ++ "/" ++ TINZENITEDIR ++ "/" ++ REMOVEDIR ++ "/" ++ "idZ")
          (exStC6.model.root ++ "/" ++ k) = true →
        k ∉ st2.model.trackedPaths) :=
  (completeTrackedRemoval_spec exEnv exStC6 "idZ"
      [("B", { isDir := false, mtime := 1, hash := "" })] rfl (by decide)).2
    (by decide) (by decide) (by decide) (by decide) (by decide)

/-- Two booleans agreeing as propositions are equal. -/
theorem bool_eq_of_iff {a b : Bool} (h : a = true ↔ b = true) : a = b := by
  cases a <;> cases b <;> simp_all

/-- The executable key-set agreement coincides with the propositional one. -/
theorem syncedB_iff (m : Model) : syncedB m = true ↔ synced m := by
  unfold syncedB synced
  rw [Bool.and_eq_true, List.all_eq_true, List.all_eq_true]
  constructor
  · rintro ⟨h1, h2⟩ k
    apply bool_eq_of_iff
    constructor
    · intro hk
      exact h1 k ((containsL_iff _ _).mp hk)
    · intro hk
      rcases (containsKey_iff _ _).mp hk with ⟨pe, hpe, hpek⟩
      rw [← hpek]
      exact (containsL_iff _ _).mpr ((containsL_iff _ _).mp (h2 pe hpe) )
  · intro h
    constructor
    · intro k hk
      rw [← h k]
      exact (containsL_iff _ _).mpr hk
    · intro pe hpe
      rw [h pe.1]
      exact (containsKey_iff _ _).mpr ⟨pe, hpe, rfl⟩

/-- Membership through tracked-set insertion. -/
theorem mem_insertTrk (l : List String) (k x : String) :
    x ∈ insertTrk l k ↔ x ∈ l ∨ x = k := by
  unfold insertTrk
  by_cases h : l.contains k = true
  · simp only [h, if_true]
    constructor
    · exact Or.inl
    · rintro (hx | hx)
      · exact hx
      · rw [hx]
        exact (containsL_iff _ _).mp h
  · simp only [Bool.not_eq_true] at h
    simp only [h, Bool.false_eq_true, if_false, List.mem_append, List.mem_singleton]

/-- Key containment through association-list insertion. -/
theorem containsKey_insertL_iff {α : Type} (l : List (String × α)) (k x : String) (v : α) :
    containsKey (insertL l k v) x = true ↔ containsKey l x = true ∨ x = k := by
  constructor
  · intro h
    rcases (containsKey_iff _ _).mp h with ⟨pe, hpe, hpek⟩
    rcases mem_insertL l k v pe hpe with hm | hm
    · exact Or.inl ((containsKey_iff _ _).mpr ⟨pe, hm, hpek⟩)
    · refine Or.inr ?_
      rw [← hpek, hm]
  · rintro (h | h)
    · exact containsKey_insertL_of l k x v h
    · rw [h]
      rcases lookupL_mem _ _ _ (lookupL_insertL_self l k v) with ⟨q, hq, hq1, _⟩
      exact (containsKey_iff _ _).mpr ⟨q, hq, hq1⟩

/-- Inserting at an already-present key leaves the key set unchanged. -/
theorem containsKey_insertL_existing {α : Type} (l : List (String × α)) (k x : String) (v : α)
    (h : containsKey l k = true) : containsKey (insertL l k v) x = containsKey l x := by
  apply bool_eq_of_iff
  rw [containsKey_insertL_iff]
  constructor
  · rintro (hx | hx)
    · exact hx
    · rw [hx]
      exact h
  · exact Or.inl

/-- Key containment through association-list deletion. -/
theorem containsKey_eraseL {α : Type} (l : List (String × α)) (k x : String) :
    containsKey (eraseL l k) x = true ↔ containsKey l x = true ∧ ¬ x = k := by
  unfold eraseL
  constructor
  · intro h
    rcases (containsKey_iff _ _).mp h with ⟨pe, hpe, hpek⟩
    rcases List.mem_filter.mp hpe with ⟨hm, hcond⟩
    refine ⟨(containsKey_iff _ _).mpr ⟨pe, hm, hpek⟩, ?_⟩
    intro he
    rw [hpek] at hcond
    rw [he] at hcond
    simp at hcond
  · rintro ⟨h, hne⟩
    rcases (containsKey_iff _ _).mp h with ⟨pe, hpe, hpek⟩
    refine (containsKey_iff _ _).mpr ⟨pe, List.mem_filter.mpr ⟨hpe, ?_⟩, hpek⟩
    rw [hpek]
    simpa using hne

/-- `notify` never touches the model maps. -/
theorem notifyM_model (op : Op) (obj : Option ObjectInfo) (s : St) :
    ((notifyM op obj) s).1.model = s.model := by
  unfold notifyM
  split
  · rfl
  · split
    · rfl
    · split
      · rfl
      · rfl

/-- `createStaticInfo` never touches the model maps. -/
theorem createStaticInfoM_model (env : Env) (full : String) (s : St) :
    ((createStaticInfoM env full) s).1.model = s.model := by
  unfold createStaticInfoM
  cases fsLookup s.fs full <;> rfl

/-- `applyFile` never touches the model maps. -/
theorem applyFileM_model (id target : String) (s : St) :
    ((applyFileM id target) s).1.model = s.model := by
  simp only [applyFileM]
  cases fsLookup s.fs (s.model.root ++ "/" ++ TINZENITEDIR ++ "/" ++ TEMPDIR ++ "/" ++ id) <;> rfl

/-- Directory creation never touches the model maps. -/
theorem mkdirM_model (env : Env) (full : String) (s : St) :
    ((mkdirM env full) s).1.model = s.model := rfl

/-- `Store` never touches the model maps. -/
theorem storeM_model (env : Env) (s : St) : ((storeM env) s).1.model = s.model := rfl

/-- Writing the local tombstone never touches the model maps. -/
theorem makeLocalRemove_model (env : Env) (id : String) (s : St) :
    ((makeLocalRemove env id) s).1.model = s.model := rfl

/-- Sequencing preserves any property each part preserves. -/
theorem mbind_pres {α β : Type} (x : M α) (f : α → M β)
    (hx : Pres x) (hf : ∀ a, Pres (f a)) : Pres (mbind x f) := by
  intro s hs
  unfold mbind
  cases hxs : x s with
  | mk s1 r =>
    have hs1 : synced s1.model := by
      have h := hx s hs
      rw [hxs] at h
      exact h
    cases r with
    | ok a => exact hf a s1 hs1
    | error e => exact hs1

/-- Returning preserves everything. -/
theorem mret_pres {α : Type} (a : α) : Pres (mret a) := fun _ hs => hs

/-- Throwing preserves everything. -/
theorem mthrow_pres {α : Type} (e : GoErr) : Pres (mthrow e : M α) := fun _ hs => hs

/-- Dropping an error preserves any property the computation preserves. -/
theorem ignoringErr_pres (x : M Unit) (hx : Pres x) : Pres (ignoringErr x) := by
  intro s hs
  exact hx s hs

/-- A loop of preserving steps preserves. -/
theorem forEachM_pres {α : Type} (f : α → M Unit) (hf : ∀ a, Pres (f a)) :
    ∀ l : List α, Pres (forEachM f l) := by
  intro l
  induction l with
  | nil => exact mret_pres ()
  | cons a rest ih => exact mbind_pres _ _ (hf a) (fun _ => ih)

/-- Inserting the same key into both maps keeps them in agreement. -/
theorem synced_insertBoth (m : Model) (k : String) (v : Staticinfo) (hs : synced m) :
    synced { m with trackedPaths := insertTrk m.trackedPaths k,
                    staticInfos := insertL m.staticInfos k v } := by
  intro x
  simp only
  apply bool_eq_of_iff
  rw [containsL_iff, mem_insertTrk, containsKey_insertL_iff]
  have hx := hs x
  constructor
  · rintro (h | h)
    · exact Or.inl (by rw [← hx]; exact (containsL_iff _ _).mpr h)
    · exact Or.inr h
  · rintro (h | h)
    · exact Or.inl ((containsL_iff _ _).mp (by rw [hx]; exact h))
    · exact Or.inr h

/-- Deleting the same key from both maps keeps them in agreement. -/
theorem synced_eraseBoth (m : Model) (k : String) (hs : synced m) :
    synced { m with trackedPaths := eraseTrk m.trackedPaths k,
                    staticInfos := eraseL m.staticInfos k } := by
  intro x
  simp only
  apply bool_eq_of_iff
  rw [containsL_iff, mem_eraseTrk, containsKey_eraseL]
  have hx := hs x
  constructor
  · rintro ⟨h, hne⟩
    exact ⟨by rw [← hx]; exact (containsL_iff _ _).mpr h, hne⟩
  · rintro ⟨h, hne⟩
    exact ⟨(containsL_iff _ _).mp (by rw [hx]; exact h), hne⟩

/-- One `directRemove` iteration keeps the maps in agreement. -/
theorem removeOne_pres (path : RelativePath) (s : St) (obj : String)
    (hs : synced s.model) : synced (removeOne path s obj).model := by
  unfold removeOne
  exact synced_eraseBoth s.model _ hs

/-- The `directRemove` fold keeps the maps in agreement. -/
theorem fold_removeOne_pres (path : RelativePath) :
    ∀ (l : List String) (s : St), synced s.model →
      synced ((l.foldl (removeOne path) s)).model := by
  intro l
  induction l with
  | nil => intro s hs; exact hs
  | cons w rest ih => intro s hs; exact ih (removeOne path s w) (removeOne_pres path s w hs)

/-- `directRemove` keeps the maps in agreement. -/
theorem directRemove_pres (env : Env) (path : RelativePath) : Pres (directRemove env path) := by
  intro s hs
  unfold directRemove
  exact fold_removeOne_pres path _ s hs

/-- The create-insertion tail keeps the maps in agreement. -/
theorem applyCreateFinish_pres (path : RelativePath) (stin : Staticinfo) :
    Pres (applyCreateFinish path stin) := by
  intro s hs
  unfold applyCreateFinish
  have hm1 := synced_insertBoth s.model path.sub stin hs
  dsimp only
  split
  · exact hm1
  · rw [notifyM_model]
    exact hm1

/-- `ApplyCreate` keeps the maps in agreement. -/
theorem applyCreate_pres (env : Env) (path : RelativePath) (remote : Option ObjectInfo) :
    Pres (applyCreate env path remote) := by
  intro s hs
  unfold applyCreate
  dsimp only
  split
  · split <;> exact hs
  · split
    · split
      · exact hs
      · apply mbind_pres _ _ ?_ ?_ s hs
        · split
          · intro s1 hs1
            rw [mkdirM_model]
            exact hs1
          · intro s1 hs1
            rw [applyFileM_model]
            exact hs1
        · intro a
          apply mbind_pres
          · intro s1 hs1
            rw [createStaticInfoM_model]
            exact hs1
          · intro stin0
            exact applyCreateFinish_pres _ _
    · split
      · exact hs
      · apply mbind_pres _ _ ?_ ?_ s hs
        · intro s1 hs1
          rw [createStaticInfoM_model]
          exact hs1
        · intro stin
          exact applyCreateFinish_pres _ _

/-- The modify-write tail keeps the maps in agreement when the written key is
already in the store. -/
theorem applyModifyFinish_pres (path : RelativePath) (stin1 : Staticinfo) (s : St)
    (hs : synced s.model) (hk : containsKey s.model.staticInfos path.sub = true) :
    synced (((applyModifyFinish path stin1) s).1).model := by
  unfold applyModifyFinish
  cases updateFromDisk s.fs path.fullPath stin1 with
  | error e => exact hs
  | ok stin2 =>
    simp only
    rw [notifyM_model]
    intro x
    simp only
    rw [containsKey_insertL_existing s.model.staticInfos path.sub x stin2 hk]
    exact hs x

/-- `ApplyModify` keeps the maps in agreement. -/
theorem applyModify_pres (path : RelativePath) (remote : Option ObjectInfo) :
    Pres (applyModify path remote) := by
  intro s hs
  unfold applyModify
  split
  · exact hs
  · cases hlk : lookupL s.model.staticInfos path.sub with
    | none => exact hs
    | some stin =>
      have hk : containsKey s.model.staticInfos path.sub = true := by
        unfold containsKey
        rw [hlk]
        rfl
      cases remote with
      | some robj =>
        dsimp only
        split
        · exact hs
        · split
          · exact hs
          · show synced (((mbind _ _) s).1).model
            unfold mbind
            cases hxs : (if robj.directory = false then
                applyFileM stin.identification path.fullPath else mret ()) s with
            | mk s1 r =>
              have hmod : s1.model = s.model := by
                have h : ((if robj.directory = false then
                    applyFileM stin.identification path.fullPath else mret ()) s).1.model =
                    s.model := by
                  split
                  · rw [applyFileM_model]
                  · rfl
                rw [hxs] at h
                exact h
              cases r with
              | error e => simpa [hmod] using hs
              | ok a =>
                apply applyModifyFinish_pres
                · rw [hmod]; exact hs
                · rw [hmod]; exact hk
      | none =>
        dsimp only
        split
        · exact hs
        · exact applyModifyFinish_pres path _ s hs hk

/-- `completeTrackedRemoval` keeps the maps in agreement. -/
theorem completeTrackedRemoval_pres (env : Env) (id : String) :
    Pres (completeTrackedRemoval env id) := by
  intro s hs
  unfold completeTrackedRemoval
  dsimp only
  split
  · exact hs
  · split
    · apply mbind_pres _ _ ?_ ?_ s hs
      · intro s1 hs1
        rw [makeLocalRemove_model]
        exact hs1
      · intro a
        exact directRemove_pres env _
    · exact hs

/-- All five removal-side operations keep the maps in agreement,
simultaneously by induction on the fuel. -/
theorem presAll (env : Env) : ∀ fuel : Nat,
    (∀ scope, Pres (updateLocal fuel env scope)) ∧
    (∀ path remObj, Pres (applyRemoveM fuel env path remObj)) ∧
    (∀ path, Pres (localRemove fuel env path)) ∧
    (∀ path robj, Pres (remoteRemove fuel env path robj)) ∧
    (∀ id, Pres (writeRemovalDir fuel env id)) := by
  intro fuel
  induction fuel with
  | zero =>
    exact ⟨fun _ => mthrow_pres _, fun _ _ => mthrow_pres _, fun _ => mthrow_pres _,
           fun _ _ => mthrow_pres _, fun _ => mthrow_pres _⟩
  | succ fuel ih =>
    obtain ⟨ihUL, ihAR, ihLR, ihRR, ihWR⟩ := ih
    refine ⟨?_, ?_, ?_, ?_, ?_⟩
    · intro scope s hs
      unfold updateLocal
      dsimp only
      refine mbind_pres _ _ ?_ ?_ s hs
      · exact forEachM_pres _ (fun sub => applyCreate_pres env _ none) _
      · intro a
        refine mbind_pres _ _ ?_ ?_
        · refine forEachM_pres _ ?_ _
          intro sub s2 hs2
          dsimp only
          split
          · exact applyModify_pres _ none s2 hs2
          · exact hs2
        · intro b
          exact forEachM_pres _ (fun sub => ihAR _ none) _
    · intro path remObj s hs
      unfold applyRemoveM
      split
      · exact hs
      · split
        · exact hs
        · cases remObj with
          | none => exact ihLR path s hs
          | some robj => exact ihRR path robj s hs
    · intro path s hs
      unfold localRemove
      split
      · exact hs
      · split
        · exact hs
        · refine mbind_pres _ _ ?_ ?_ s hs
          · exact directRemove_pres env path
          · intro a
            refine mbind_pres _ _ ?_ ?_
            · exact ihWR _
            · intro b
              refine mbind_pres _ _ ?_ ?_
              · exact ignoringErr_pres _ (ihUL _)
              · intro c s2 hs2
                rw [notifyM_model]
                exact hs2
    · intro path robj s hs
      unfold remoteRemove
      dsimp only
      refine mbind_pres _ _ ?_ ?_ s hs
      · split
        · exact directRemove_pres env path
        · exact mret_pres ()
      · intro a
        split
        · exact ihLR path
        · exact ihWR _
    · intro id s hs
      unfold writeRemovalDir
      dsimp only
      exact ihUL _ _ hs

/-- One tombstone sweep step keeps the maps in agreement. -/
theorem checkRemoveOne_pres (fuel : Nat) (env : Env) (pe : String × FSEntry) :
    Pres (checkRemoveOne fuel env pe) := by
  apply mbind_pres
  · exact (presAll env fuel).2.2.2.2 pe.1
  · intro a
    exact ignoringErr_pres _ (completeTrackedRemoval_pres env pe.1)

/-- The full tombstone sweep keeps the maps in agreement. -/
theorem checkRemove_pres (fuel : Nat) (env : Env) : Pres (checkRemove fuel env) := by
  intro s hs
  unfold checkRemove
  dsimp only
  split
  · exact hs
  · refine mbind_pres _ _ ?_ ?_ s hs
    · exact forEachM_pres _ (fun pe => checkRemoveOne_pres fuel env pe) _
    · intro a s2 hs2
      dsimp only
      split
      · exact hs2
      · exact hs2

/-- `PartialUpdate` keeps the maps in agreement. -/
theorem partialUpdate_pres (fuel : Nat) (env : Env) (scope : String) :
    Pres (partialUpdate fuel env scope) := by
  apply mbind_pres
  · exact (presAll env fuel).1 scope
  · intro a
    apply mbind_pres
    · exact checkRemove_pres fuel env
    · intro b s hs
      rw [storeM_model]
      exact hs

/-- `Update` keeps the maps in agreement. -/
theorem updateModel_pres (fuel : Nat) (env : Env) : Pres (updateModel fuel env) := by
  intro s hs
  exact partialUpdate_pres fuel env s.model.root s hs

/-- One bootstrap step taken on an agreeing model yields an agreeing model:
a known path rewrites an existing record in place. -/
theorem bootstrapStep_synced (acc : Model × List UpdateMessage) (remObj : ObjectInfo)
    (hs : synced acc.1) (r : Model × List UpdateMessage)
    (hr : bootstrapStep acc remObj = .ok r) : synced r.1 := by
  unfold bootstrapStep at hr
  by_cases hc : acc.1.trackedPaths.contains remObj.path = false
  · rw [if_pos hc] at hr
    cases hr
    exact hs
  · rw [if_neg hc] at hr
    cases hlk : lookupL acc.1.staticInfos remObj.path with
    | none =>
      rw [hlk] at hr
      cases hr
    | some localstin =>
      rw [hlk] at hr
      dsimp only at hr
      have hk : containsKey acc.1.staticInfos remObj.path = true := by
        unfold containsKey
        rw [hlk]
        rfl
      split at hr
      · cases hr
        intro x
        dsimp only
        rw [containsKey_insertL_existing _ _ _ _ hk]
        exact hs x
      · cases hr
        intro x
        dsimp only
        rw [containsKey_insertL_existing _ _ _ _ hk]
        exact hs x

/-- Unfolding one step of `foldlM` over `Except`. -/
theorem foldlM_except_cons {α β : Type} (f : β → α → Except GoErr β) (b : β) (a : α)
    (l : List α) :
    (a :: l).foldlM f b = match f b a with
      | .error e => .error e
      | .ok b1 => l.foldlM f b1 := by
  rw [List.foldlM_cons]
  cases f b a <;> rfl

/-- The bootstrap fold keeps the maps in agreement. -/
theorem bootstrap_fold_synced (remObjs : List ObjectInfo) :
    ∀ acc : Model × List UpdateMessage, synced acc.1 →
    ∀ r, remObjs.foldlM bootstrapStep acc = .ok r → synced r.1 := by
  induction remObjs with
  | nil =>
    intro acc hs r hr
    cases hr
    exact hs
  | cons o os ih =>
    intro acc hs r hr
    rw [foldlM_except_cons] at hr
    cases hstep : bootstrapStep acc o with
    | error e =>
      rw [hstep] at hr
      cases hr
    | ok acc1 =>
      rw [hstep] at hr
      exact ih acc1 (bootstrapStep_synced acc o hs acc1 hstep) r hr

/-- A successful `Bootstrap` yields an agreeing model. -/
theorem bootstrap_synced (m : Model) (foreignObjs : List ObjectInfo) (hs : synced m)
    (r : Model × List UpdateMessage) (hr : bootstrap m foreignObjs = .ok r) :
    synced r.1 := by
  unfold bootstrap at hr
  cases hfold : foreignObjs.foldlM bootstrapStep (m, []) with
  | error e =>
    rw [hfold] at hr
    cases hr
  | ok p =>
    rw [hfold] at hr
    cases p with
    | mk m1 ums =>
      dsimp only at hr
      cases hr
      exact bootstrap_fold_synced foreignObjs (m, []) hs (m1, ums) hfold

/-- C8: every public mutator preserves the invariant that the tracked-path
set is exactly the key set of the static-info store.  From any state whose
maps agree (`syncedB`), `ApplyCreate`, `ApplyModify`, `ApplyRemove`,
`PartialUpdate`/`Update` and every successful `Bootstrap` lead only to
states whose maps agree: entries enter and leave both maps together. -/
theorem invariant_preserved (env : Env) (fuel : Nat) (path : RelativePath)
    (remote : Option ObjectInfo) (scope : String) (m : Model)
    (foreignObjs : List ObjectInfo) (s : St)
    (hs : syncedB s.model = true) (hm : syncedB m = true) :
    syncedB ((applyCreate env path remote s).1).model = true ∧
    syncedB ((applyModify path remote s).1).model = true ∧
    syncedB ((applyRemoveM fuel env path remote s).1).model = true ∧
    syncedB ((partialUpdate fuel env scope s).1).model = true ∧
    syncedB ((updateModel fuel env s).1).model = true ∧
    (∀ r, bootstrap m foreignObjs = .ok r → syncedB r.1 = true) := by
  rw [syncedB_iff] at hs hm
  refine ⟨?_, ?_, ?_, ?_, ?_, ?_⟩
  · rw [syncedB_iff]
    exact applyCreate_pres env path remote s hs
  · rw [syncedB_iff]
    exact applyModify_pres path remote s hs
  · rw [syncedB_iff]
    exact (presAll env fuel).2.1 path remote s hs
  · rw [syncedB_iff]
    exact partialUpdate_pres fuel env scope s hs
  · rw [syncedB_iff]
    exact updateModel_pres fuel env s hs
  · intro r hr
    rw [syncedB_iff]
    exact bootstrap_synced m foreignObjs hm r hr

/-- Concrete instance of the invariant-preservation theorem: the example
state agrees, and a local create of `b.txt` keeps it agreeing. -/
theorem invariant_preserved_witness :
    syncedB exStMod.model = true ∧ syncedB exModel = true ∧
    syncedB ((applyCreate exEnv (createPath "/r" "b.txt") none exStMod).1).model = true :=
  ⟨by decide, by decide,
   (invariant_preserved exEnv 3 (createPath "/r" "b.txt") none "/r" exModel [] exStMod
     (by decide) (by decide)).1⟩

end Tinzenite
